import Mathlib

/-!
Shallow embedding of the FRC Power Up score simulation (`simulation.py`).

The Python program is a single-threaded discrete-event simulation: a
`Simulation` owns an integer clock and an ordered list of `Agent`s; each
agent stores at most one scheduled action `(eta, scheduled_action,
scheduled_action_description)`; `tick()` advances the clock by one second
and updates every agent in registration order.  Robot and Human agents are
driven by "player" generators (deciders) that are resumed each time the
agent has no outstanding scheduled action.

Embedding choices, all mirroring the source:
  * Python ints become `Int`; time, delays and cube counts are `Int`.
  * Exceptions (`GameOver`, `RuntimeError`, `KeyError`, `TypeError`)
    become an `Except Err` result.  A Python `raise` placed before any
    mutation is rendered as returning `.error` before building the new
    state, so the error case leaves no modified state, exactly as the
    exception leaves the Python object unchanged.
  * The effect closures created by `Robot.pickup`, `Robot.drop`, ... are
    defunctionalised into the inductive `ActionCode`, interpreted by
    `runAction`; the generator-based deciders are defunctionalised into
    `Player` (a finite tree of yield steps, terminated by the
    `itertools.repeat` style constant generator), whose steps issue the
    `Cmd` method calls that the generators in the repository perform.
  * A ghost `trace : List Event` is threaded through the interpreter,
    recording `update` calls, fired actions, decider resumptions and
    `score` calls; it changes no behaviour and exists only so that
    ordering/counting statements ("exactly once", "after all updates")
    can be expressed.
  * Plates are shared objects referenced both by seesaws and by
    `simulation.plates`; they are modelled by a `PlateId` key into a
    `plateCubes` table, which models the aliasing of the Python object
    references.
-/

set_option maxHeartbeats 1000000

namespace PowerUp

/-- Alliance colors; the source uses singleton `Color` strings RED and BLUE
with an `opposite` property.  The empty alliance string is modelled as
`Option Color` = `none` at use sites. -/
inductive Color where
  | RED
  | BLUE
deriving DecidableEq

/-- `RED.opposite is BLUE` and vice versa. -/
def Color.opposite : Color → Color
  | .RED => .BLUE
  | .BLUE => .RED

def AUTONOMOUS_SECS : Int := 15

def TELEOP_SECS : Int := 2 * 60 + 15

def GAME_SECS : Int := AUTONOMOUS_SECS + TELEOP_SECS

def POWER_UP_SECS : Int := 10

/-- Robot locations, exactly the `Location` enum of the source. -/
inductive Location where
  | RED_EXCHANGE_ZONE | BLUE_EXCHANGE_ZONE
  | RED_FRONT_PORTAL | RED_BACK_PORTAL | BLUE_FRONT_PORTAL | BLUE_BACK_PORTAL
  | RED_POWER_CUBE_ZONE | BLUE_POWER_CUBE_ZONE
  | RED_SWITCH_FENCE | BLUE_SWITCH_FENCE
  | RED_OUTER_ZONE | BLUE_OUTER_ZONE
  | RED_FRONT_INNER_ZONE | RED_BACK_INNER_ZONE
  | BLUE_FRONT_INNER_ZONE | BLUE_BACK_INNER_ZONE
  | RED_PLATFORM | BLUE_PLATFORM | RED_PLATFORM_CLIMBED | BLUE_PLATFORM_CLIMBED
  | FRONT_NULL_TERRITORY | BACK_NULL_TERRITORY
deriving DecidableEq

/-- `loc.is_inner_zone = loc.name.endswith('_INNER_ZONE')`. -/
def Location.is_inner_zone : Location → Bool
  | .RED_FRONT_INNER_ZONE | .RED_BACK_INNER_ZONE
  | .BLUE_FRONT_INNER_ZONE | .BLUE_BACK_INNER_ZONE => true
  | _ => false

/-- The alliance Platform location found by `find_location` with pattern
`_PLATFORM` substituted with the alliance color name. -/
def platformOf : Color → Location
  | .RED => .RED_PLATFORM
  | .BLUE => .BLUE_PLATFORM

/-- The direct travel paths installed by `_init_locations` via `set_pairs`:
each template pair appears for both alliances (the `red`/`blue` tokens
substituted by the alliance and its opposite). -/
def travelPairs : List (Location × Location × Int) :=
  [(.RED_OUTER_ZONE, .RED_EXCHANGE_ZONE, 2), (.BLUE_OUTER_ZONE, .BLUE_EXCHANGE_ZONE, 2),
   (.RED_OUTER_ZONE, .BLUE_FRONT_PORTAL, 5), (.BLUE_OUTER_ZONE, .RED_FRONT_PORTAL, 5),
   (.RED_OUTER_ZONE, .BLUE_BACK_PORTAL, 5), (.BLUE_OUTER_ZONE, .RED_BACK_PORTAL, 5),
   (.RED_OUTER_ZONE, .RED_POWER_CUBE_ZONE, 2), (.BLUE_OUTER_ZONE, .BLUE_POWER_CUBE_ZONE, 2),
   (.RED_OUTER_ZONE, .RED_FRONT_INNER_ZONE, 6), (.BLUE_OUTER_ZONE, .BLUE_FRONT_INNER_ZONE, 6),
   (.RED_OUTER_ZONE, .RED_BACK_INNER_ZONE, 6), (.BLUE_OUTER_ZONE, .BLUE_BACK_INNER_ZONE, 6),
   (.RED_SWITCH_FENCE, .RED_FRONT_INNER_ZONE, 4), (.BLUE_SWITCH_FENCE, .BLUE_FRONT_INNER_ZONE, 4),
   (.RED_SWITCH_FENCE, .RED_BACK_INNER_ZONE, 4), (.BLUE_SWITCH_FENCE, .BLUE_BACK_INNER_ZONE, 4),
   (.RED_SWITCH_FENCE, .RED_PLATFORM, 2), (.BLUE_SWITCH_FENCE, .BLUE_PLATFORM, 2),
   (.RED_PLATFORM, .RED_FRONT_INNER_ZONE, 4), (.BLUE_PLATFORM, .BLUE_FRONT_INNER_ZONE, 4),
   (.RED_PLATFORM, .RED_BACK_INNER_ZONE, 4), (.BLUE_PLATFORM, .BLUE_BACK_INNER_ZONE, 4),
   (.RED_FRONT_INNER_ZONE, .FRONT_NULL_TERRITORY, 6), (.BLUE_FRONT_INNER_ZONE, .FRONT_NULL_TERRITORY, 6),
   (.RED_BACK_INNER_ZONE, .BACK_NULL_TERRITORY, 6), (.BLUE_BACK_INNER_ZONE, .BACK_NULL_TERRITORY, 6)]

/-- `TRAVEL_TIMES` dict lookup; `set_pairs` installs forward and reverse
entries, modelled by the symmetric match.  `none` models a `KeyError`. -/
def TRAVEL_TIMES (a b : Location) : Option Int :=
  (travelPairs.find? fun t => (t.1 == a && t.2.1 == b) || (t.1 == b && t.2.1 == a)).map
    (fun t => t.2.2)

/-- `Score(red, blue)` namedtuple. -/
structure Score where
  red : Int
  blue : Int
deriving DecidableEq

/-- `Score.ZERO`. -/
def Score.ZERO : Score := ⟨0, 0⟩

/-- `Score.__add__`: pairwise addition. -/
def Score.add (a b : Score) : Score := ⟨a.red + b.red, a.blue + b.blue⟩

instance : Add Score := ⟨Score.add⟩

/-- `Score.pick(color, value)`: RED or BLUE or neither gets the value. -/
def Score.pick (color : Option Color) (value : Int) : Score :=
  ⟨if color = some Color.RED then value else 0,
   if color = some Color.BLUE then value else 0⟩

/-- `ScoreFactor` enum. -/
inductive ScoreFactor where
  | NOT_YET | ACHIEVED | COUNTED
deriving DecidableEq

/-- `Robot.climbed`, one of the strings empty / Climbed / Levitated;
Python truthiness of the string is `≠ notClimbed`. -/
inductive Climbed where
  | notClimbed | Climbed | Levitated
deriving DecidableEq

/-- Identity of a shared `Plate` object (seesaw plates and Exchange
conveyor plates); `testPlate n` covers plates created in tests or other
setups. -/
inductive PlateId where
  | scaleFront | scaleBack
  | switchFront (alliance : Color) | switchBack (alliance : Color)
  | exchangePlate (alliance : Color)
  | testPlate (n : Nat)
deriving DecidableEq

/-- Defunctionalised scheduled-action effect closures.  Each constructor
is one closure the source passes to `schedule_action`:
`wait_done` is the `lambda: "done"` of `wait`/`wait_for_teleop`;
`*_finish` are the `finish` closures of the Cube-transfer methods;
`drive_arrive` is `arrive` in `drive_to`; `noop id` is a generic
effect-free action used to quantify over primitive actions; and
`schedule_inside` models a closure that itself calls
`self.schedule_action(seconds, inner, desc)` when it runs (re-entrant
scheduling, as the contract of `update` explicitly allows). -/
inductive ActionCode where
  | wait_done
  | pickup_finish
  | drop_finish
  | place_finish
  | climb_finish
  | drive_arrive (dest : Location)
  | get_from_exchange_finish
  | put_to_exchange_finish
  | put_through_portal_finish
  | noop (id : Nat)
  | schedule_inside (seconds : Int) (inner : ActionCode) (description : String)
deriving DecidableEq

/-- One method call a decider generator performs on its own actor before
yielding: these are exactly the scheduling entry points of `Agent`,
`Robot` and `Human` that the repository deciders use (`set_cubes` models
direct preload assignments like `robot.cubes = 1`; `schedule` models a
direct `schedule_action` call). -/
inductive Cmd where
  | drive_to (dest : Location)
  | pickup
  | drop
  | place
  | climb
  | wait (seconds : Int)
  | wait_for_teleop
  | set_cubes (n : Int)
  | schedule (seconds : Int) (action : ActionCode) (description : String)
  | get_from_exchange
  | put_to_exchange
  | put_through_portal
deriving DecidableEq

/-- Defunctionalised decider generator: `repeatS s` is the terminal
`itertools.repeat` style generator yielding `s` forever with no side
effects; `yieldStep cmds s rest` runs the method calls `cmds`, yields the
behavior string `s`, and continues as `rest` on the next resumption. -/
inductive Player where
  | repeatS (s : String)
  | yieldStep (cmds : List Cmd) (behavior : String) (rest : Player)
deriving DecidableEq

/-- Ghost trace events (pure instrumentation): an `update(time)` call on a
named agent, a scheduled action effect invocation, a decider resumption
(`player.next()`), and a `score()` call with its result. -/
inductive Event where
  | updateEv (name : String) (time : Int)
  | fireEv (name : String) (action : ActionCode)
  | driveEv (name : String)
  | scoreEv (name : String) (sc : Score)
deriving DecidableEq

/-- Robot state (`Robot.__init__`): timing parameters, location, carried
cubes, climb state, auto-run score factor, behavior string and the
attached decider. -/
structure RobotData where
  extra_drive_time : Int
  pickup_time : Int
  drop_time : Int
  place_time : Int
  climb_time : Int
  location : Location
  cubes : Int
  climbed : Climbed
  auto_run : ScoreFactor
  behavior : String
  player : Player
deriving DecidableEq

/-- Human state (`Human.__init__`): timing parameters, the refs that are
`None` when irrelevant to the position, carried cubes, behavior and the
attached decider. -/
structure HumanData where
  get_from_exchange_time : Int
  put_to_exchange_time : Int
  put_through_portal_time : Int
  exchange_plate : Option PlateId
  exchange_zone : Option Location
  portal : Option Location
  cubes : Int
  behavior : String
  player : Player
deriving DecidableEq

/-- Seesaw state shared by `Scale` and `Switch` (cube counts live in the
simulation-wide `plateCubes` table under the two plate ids). -/
structure SeesawData where
  front_color : Color
  front_plate : PlateId
  back_plate : PlateId
  forced : Bool
  force_alliance : Option Color
  boosted : Bool
  boost_alliance : Option Color
  previous_owner : Option Color
deriving DecidableEq

/-- Extra `Switch` fields (`active_power_up` interlock, `levitate_activated`). -/
structure SwitchExtra where
  active_power_up : Option String
  levitate_activated : Bool
deriving DecidableEq

/-- One `VaultColumn`. -/
structure VaultColumnData where
  alliance : Color
  action : String
  cubes : Int
  previous_cubes : Int
  played : Bool
deriving DecidableEq

/-- A `Vault` agent: its three columns in `(force, levitate, boost)` order. -/
structure VaultData where
  columns : List VaultColumnData
deriving DecidableEq

/-- The concrete kind-specific state of an agent.  `base` is a plain
`Agent` (as instantiated directly in the unit tests). -/
inductive AgentData where
  | base
  | robot (r : RobotData)
  | human (h : HumanData)
  | scale (d : SeesawData)
  | switch (d : SeesawData) (ex : SwitchExtra)
  | vault (v : VaultData)
deriving DecidableEq

/-- An `Agent`: the base-class fields (name, alliance, position and the
single scheduled-action slot) plus the kind-specific data. -/
structure Agent where
  name : String
  alliance : Option Color
  position : String
  eta : Option Int
  scheduled_action : Option ActionCode
  scheduled_action_description : String
  data : AgentData
deriving DecidableEq

/-- Errors: `GameOver` from `tick`, `KeyError` from dict lookups,
`RuntimeError`/`TypeError` carrying their message. -/
inductive Err where
  | gameOver
  | keyError
  | runtimeError (msg : String)
deriving DecidableEq

/-- A `Simulation`: clock, ordered agents (the `OrderedDict` values in
registration order), field cube counts, plate cube counts, the
location-to-plate table, and the ghost event trace. -/
structure Simulation where
  time : Int
  agents : List Agent
  cubes : Location → Int
  plateCubes : PlateId → Int
  plates : Location → Option PlateId
  trace : List Event

/-- `Simulation.autonomous`: true during the autonomous period. -/
def Simulation.autonomous (s : Simulation) : Bool :=
  decide (s.time ≤ AUTONOMOUS_SECS)

/-- Look up the agent at registration index `i`. -/
def getAgent (s : Simulation) (i : Nat) : Option Agent := s.agents[i]?

/-- Replace agent `i` by `f` applied to it (all agent mutation in the
interpreter goes through this). -/
def modifyAgent (s : Simulation) (i : Nat) (f : Agent → Agent) : Simulation :=
  match s.agents[i]? with
  | none => s
  | some ag => { s with agents := s.agents.set i (f ag) }

/-- Append a ghost trace event. -/
def emit (s : Simulation) (e : Event) : Simulation :=
  { s with trace := s.trace ++ [e] }

/-- Point update of the field cube table (`simulation.cubes[loc] = n`). -/
def setLocCubes (s : Simulation) (loc : Location) (n : Int) : Simulation :=
  { s with cubes := fun l => if l = loc then n else s.cubes l }

/-- Point update of a plate cube count (`plate.cubes = n`). -/
def setPlateCubes (s : Simulation) (p : PlateId) (n : Int) : Simulation :=
  { s with plateCubes := fun q => if q = p then n else s.plateCubes q }

/-- `Agent.schedule_action(seconds, action, description)`: store
`eta = self.time + seconds` and the action and description, unconditionally
replacing any currently scheduled action. -/
def schedule_actionAt (s : Simulation) (i : Nat) (seconds : Int) (action : ActionCode)
    (description : String) : Simulation :=
  modifyAgent s i fun ag =>
    { ag with eta := some (s.time + seconds), scheduled_action := some action,
              scheduled_action_description := description }

/-- `Agent.wait(seconds)`: `delay = max(seconds, 1)` then schedule the
do-nothing action. -/
def waitAt (s : Simulation) (i : Nat) (seconds : Int) : Simulation :=
  schedule_actionAt s i (max seconds 1) ActionCode.wait_done ("wait")

/-- `Agent.wait_for_teleop()`: schedule a wait until Teleop when still in
the autonomous period, otherwise do nothing. -/
def wait_for_teleopAt (s : Simulation) (i : Nat) : Simulation :=
  if 0 < AUTONOMOUS_SECS - s.time then
    schedule_actionAt s i (AUTONOMOUS_SECS - s.time) ActionCode.wait_done ("wait for Teleop")
  else s

/-- `Robot.at_platform`: the robot is at `find_location('_PLATFORM')` of
its alliance.  (Robots always carry a RED/BLUE alliance in the source; an
empty alliance would make `find_location` raise, and is rendered `false`
here as that path is never constructed.) -/
def at_platform (alliance : Option Color) (location : Location) : Bool :=
  match alliance with
  | some c => location = platformOf c
  | none => false

/-- Set the carried-cube count of a Robot or Human (direct assignment
`robot.cubes = n` performed by a decider preamble). -/
def setCubesField (ag : Agent) (n : Int) : Agent :=
  match ag.data with
  | .robot r => { ag with data := .robot { r with cubes := n } }
  | .human h => { ag with data := .human { h with cubes := n } }
  | _ => ag

/-- The decider attached to a Robot or Human. -/
def Agent.playerOf (ag : Agent) : Option Player :=
  match ag.data with
  | .robot r => some r.player
  | .human h => some h.player
  | _ => none

/-- Store a new decider state and the behavior string it yielded
(`self.behavior = self.player.next()` after the resumption ran). -/
def setPlayerBehavior (ag : Agent) (p : Player) (b : String) : Agent :=
  match ag.data with
  | .robot r => { ag with data := .robot { r with player := p, behavior := b } }
  | .human h => { ag with data := .human { h with player := p, behavior := b } }
  | _ => ag

/-- `Robot.set_player(generator)` / `Human.set_player(generator)`: store
the generator that chooses actions.  (The source stores it and does
nothing else.) -/
def set_player (ag : Agent) (g : Player) : Agent :=
  match ag.data with
  | .robot r => { ag with data := .robot { r with player := g } }
  | .human h => { ag with data := .human { h with player := g } }
  | _ => ag

/-- Run one decider method call on agent `i`.  Each branch is the body of
the corresponding source method: `drive_to` refuses after climbing and
raises `KeyError` on a non-adjacent destination; `climb` schedules only
when at the platform; the Cube methods schedule their `finish` closure
with the agent's timing parameter.  A command for a method the agent's
class does not define leaves the state unchanged (the repository deciders
only call methods of their own actor). -/
def runCmd (s : Simulation) (i : Nat) (c : Cmd) : Except Err Simulation :=
  match s.agents[i]? with
  | none => .ok s
  | some ag =>
    match c with
    | .wait seconds => .ok (waitAt s i seconds)
    | .wait_for_teleop => .ok (wait_for_teleopAt s i)
    | .schedule seconds a d => .ok (schedule_actionAt s i seconds a d)
    | .set_cubes n => .ok (modifyAgent s i fun a => setCubesField a n)
    | .drive_to dest =>
      match ag.data with
      | .robot r =>
        if r.climbed ≠ Climbed.notClimbed then .ok s
        else
          match TRAVEL_TIMES r.location dest with
          | none => .error .keyError
          | some t =>
            .ok (schedule_actionAt s i (t + r.extra_drive_time)
                  (ActionCode.drive_arrive dest) ("drive_to"))
      | _ => .ok s
    | .pickup =>
      match ag.data with
      | .robot r => .ok (schedule_actionAt s i r.pickup_time ActionCode.pickup_finish ("pickup"))
      | _ => .ok s
    | .drop =>
      match ag.data with
      | .robot r => .ok (schedule_actionAt s i r.drop_time ActionCode.drop_finish ("drop"))
      | _ => .ok s
    | .place =>
      match ag.data with
      | .robot r => .ok (schedule_actionAt s i r.place_time ActionCode.place_finish ("place"))
      | _ => .ok s
    | .climb =>
      match ag.data with
      | .robot r =>
        if at_platform ag.alliance r.location then
          .ok (schedule_actionAt s i r.climb_time ActionCode.climb_finish ("climb"))
        else .ok s
      | _ => .ok s
    | .get_from_exchange =>
      match ag.data with
      | .human h =>
        .ok (schedule_actionAt s i h.get_from_exchange_time
              ActionCode.get_from_exchange_finish ("get from Exchange"))
      | _ => .ok s
    | .put_to_exchange =>
      match ag.data with
      | .human h =>
        .ok (schedule_actionAt s i h.put_to_exchange_time
              ActionCode.put_to_exchange_finish ("put to Exchange"))
      | _ => .ok s
    | .put_through_portal =>
      match ag.data with
      | .human h =>
        .ok (schedule_actionAt s i h.put_through_portal_time
              ActionCode.put_through_portal_finish ("put through Portal"))
      | _ => .ok s

/-- Run a list of decider method calls in order, stopping at the first
exception (the generator body runs to its next `yield`). -/
def runCmds (s : Simulation) (i : Nat) : List Cmd → Except Err Simulation
  | [] => .ok s
  | c :: cs =>
    match runCmd s i c with
    | .error e => .error e
    | .ok s' => runCmds s' i cs

/-- `self.behavior = self.player.next()`: resume the decider of agent `i`
one step.  Emits one ghost `driveEv`.  For the terminal constant
generator the behavior string is stored and the generator is unchanged;
for a yield step the method calls run first (while the stored generator is
still the old one, as in Python), then the behavior string and the rest of
the generator are stored. -/
def playerNext (s : Simulation) (i : Nat) : Except Err Simulation :=
  match s.agents[i]? with
  | none => .ok s
  | some ag =>
    match ag.playerOf with
    | none => .ok (emit s (Event.driveEv ag.name))
    | some (.repeatS str) =>
      .ok (modifyAgent (emit s (Event.driveEv ag.name)) i fun a =>
            setPlayerBehavior a (Player.repeatS str) str)
    | some (.yieldStep cmds str rest) =>
      match runCmds (emit s (Event.driveEv ag.name)) i cmds with
      | .error e => .error e
      | .ok s2 => .ok (modifyAgent s2 i fun a => setPlayerBehavior a rest str)

/-- Interpret a fired scheduled-action effect on agent `i`: each branch is
the body of the corresponding `finish`/`arrive` closure in the source,
including its silent precondition guards.  `noop` has no effect;
`schedule_inside` performs a re-entrant `schedule_action`. -/
def runAction (s : Simulation) (i : Nat) (a : ActionCode) : Except Err Simulation :=
  match s.agents[i]? with
  | none => .ok s
  | some ag =>
    match a with
    | .wait_done => .ok s
    | .noop _ => .ok s
    | .schedule_inside seconds inner d => .ok (schedule_actionAt s i seconds inner d)
    | .pickup_finish =>
      match ag.data with
      | .robot r =>
        if s.cubes r.location > 0 ∧ r.cubes = 0 then
          .ok (setLocCubes
                (modifyAgent s i fun a => { a with data := .robot { r with cubes := r.cubes + 1 } })
                r.location (s.cubes r.location - 1))
        else .ok s
      | _ => .ok s
    | .drop_finish =>
      match ag.data with
      | .robot r =>
        if r.cubes > 0 then
          .ok (setLocCubes
                (modifyAgent s i fun a => { a with data := .robot { r with cubes := r.cubes - 1 } })
                r.location (s.cubes r.location + 1))
        else .ok s
      | _ => .ok s
    | .place_finish =>
      match ag.data with
      | .robot r =>
        match s.plates r.location with
        | some p =>
          if r.cubes > 0 then
            .ok (setPlateCubes
                  (modifyAgent s i fun a => { a with data := .robot { r with cubes := r.cubes - 1 } })
                  p (s.plateCubes p + 1))
          else .ok s
        | none => .ok s
      | _ => .ok s
    | .climb_finish =>
      match ag.data with
      | .robot r =>
        if at_platform ag.alliance r.location then
          .ok (modifyAgent s i fun a => { a with data := .robot { r with climbed := Climbed.Climbed } })
        else .ok s
      | _ => .ok s
    | .drive_arrive dest =>
      match ag.data with
      | .robot r =>
        let r1 := { r with location := dest }
        let r2 :=
          if r1.auto_run = ScoreFactor.NOT_YET ∧ dest.is_inner_zone = true ∧
             s.time ≤ AUTONOMOUS_SECS + 1 then
            { r1 with auto_run := ScoreFactor.ACHIEVED }
          else r1
        .ok (modifyAgent s i fun a => { a with data := .robot r2 })
      | _ => .ok s
    | .get_from_exchange_finish =>
      match ag.data with
      | .human h =>
        match h.exchange_plate with
        | none => .error (.runtimeError ("AttributeError: NoneType has no attribute cubes"))
        | some p =>
          if s.plateCubes p > 0 then
            .ok (setPlateCubes
                  (modifyAgent s i fun a => { a with data := .human { h with cubes := h.cubes + 1 } })
                  p (s.plateCubes p - 1))
          else .ok s
      | _ => .ok s
    | .put_to_exchange_finish =>
      match ag.data with
      | .human h =>
        if h.cubes > 0 then
          match h.exchange_zone with
          | none => .error .keyError
          | some z =>
            .ok (setLocCubes
                  (modifyAgent s i fun a => { a with data := .human { h with cubes := h.cubes - 1 } })
                  z (s.cubes z + 1))
        else .ok s
      | _ => .ok s
    | .put_through_portal_finish =>
      match ag.data with
      | .human h =>
        if h.cubes > 0 then
          match h.portal with
          | none => .error .keyError
          | some z =>
            .ok (setLocCubes
                  (modifyAgent s i fun a => { a with data := .human { h with cubes := h.cubes - 1 } })
                  z (s.cubes z + 1))
        else .ok s
      | _ => .ok s

/-- `scheduled_action_done()` dispatch: the base implementation is a
no-op; `Robot` and `Human` resume their decider
(`self.behavior = self.player.next()`). -/
def scheduled_action_doneAt (s : Simulation) (i : Nat) : Except Err Simulation :=
  match s.agents[i]? with
  | none => .ok s
  | some ag =>
    match ag.data with
    | .robot _ => playerNext s i
    | .human _ => playerNext s i
    | _ => .ok s

/-- Clear the three stored action fields (the first half of the fire
branch of `Agent.update`). -/
def clearAction (b : Agent) : Agent :=
  { b with eta := none, scheduled_action := none, scheduled_action_description := ("") }

/-- `Agent.update(time)` (the base-class body, lines 194-205): when
`time == eta`, save the action, clear the three stored fields, then run
the action, then run the `scheduled_action_done` hook.  When the clock
does not match the eta nothing happens.  A cleared slot whose action was
`None` would raise `TypeError` when called (unreachable in the source
because the three fields are always set together). -/
def baseUpdateAt (s : Simulation) (i : Nat) (time : Int) : Except Err Simulation :=
  match s.agents[i]? with
  | none => .ok s
  | some ag =>
    if ag.eta = some time then
      match ag.scheduled_action with
      | none => .error (.runtimeError ("TypeError: NoneType object is not callable"))
      | some a =>
        match runAction
            (emit (modifyAgent s i clearAction) (Event.fireEv ag.name a)) i a with
        | .error e => .error e
        | .ok s3 => scheduled_action_doneAt s3 i
    else .ok s

/-- The dynamic `update(time)` call on agent `i`: `Robot.update` and
`Human.update` first resume the decider when there is no outstanding
scheduled action, then run the base-class update; every other kind runs
the base-class update directly.  Emits one ghost `updateEv`. -/
def updateAt (s : Simulation) (i : Nat) (time : Int) : Except Err Simulation :=
  match s.agents[i]? with
  | none => .ok s
  | some ag =>
    match ag.data with
    | .robot _ | .human _ =>
      if ag.scheduled_action = none then
        match playerNext (emit s (Event.updateEv ag.name time)) i with
        | .error e => .error e
        | .ok s2 => baseUpdateAt s2 i time
      else baseUpdateAt (emit s (Event.updateEv ag.name time)) i time
    | _ => baseUpdateAt (emit s (Event.updateEv ag.name time)) i time

/-- The `for agent in self.agents.itervalues(): agent.update(time)` loop,
by remaining count `n` starting at index `i`. -/
def updateLoop (time : Int) : Nat → Nat → Simulation → Except Err Simulation
  | 0, _, s => .ok s
  | n + 1, i, s =>
    match updateAt s i time with
    | .error e => .error e
    | .ok s' => updateLoop time n (i + 1) s'

/-- `Simulation.tick()`: compute `time + 1`; raise `GameOver` when it
would exceed `GAME_SECS` (before storing the time and before updating any
agent); otherwise store it and update all agents in registration order
with the new time. -/
def Simulation.tick (s : Simulation) : Except Err Simulation :=
  if GAME_SECS < s.time + 1 then .error .gameOver
  else updateLoop (s.time + 1) s.agents.length 0 { s with time := s.time + 1 }

/-- Iterate `tick` a number of times, stopping at the first exception. -/
def Simulation.ticksN : Nat → Simulation → Except Err Simulation
  | 0, s => .ok s
  | n + 1, s =>
    match s.tick with
    | .error e => .error e
    | .ok s' => Simulation.ticksN n s'

/-- `Scale.owner()` without the Switch restriction: the forcing alliance
when forced, otherwise decided by comparing the two plate cube counts
(front heavier gives the front color, tie gives nobody). -/
def SeesawData.owner (d : SeesawData) (frontCubes backCubes : Int) : Option Color :=
  if d.forced then d.force_alliance
  else if backCubes < frontCubes then some d.front_color
  else if frontCubes < backCubes then some d.front_color.opposite
  else none

/-- `Switch.owner()`: the base owner when it is this Switch's own
alliance, otherwise nobody. -/
def switchOwner (selfAlliance : Option Color) (d : SeesawData)
    (frontCubes backCubes : Int) : Option Color :=
  let o := d.owner frontCubes backCubes
  if o = selfAlliance then o else none

/-- `Scale.force(alliance, is_start)`: raises `RuntimeError` during the
autonomous period; otherwise starts or ends a Force, stopping any Boost. -/
def Scale.force (autonomous : Bool) (d : SeesawData) (alliance : Color)
    (start : Bool) : Except Err SeesawData :=
  if autonomous then .error (.runtimeError ("Cannot Force during autonomous"))
  else
    .ok { d with forced := start,
                 force_alliance := if start then some alliance else none,
                 boosted := false, boost_alliance := none }

/-- `Scale.boost(alliance, is_start)`: raises `RuntimeError` during the
autonomous period; otherwise starts or ends a Boost, stopping any Force. -/
def Scale.boost (autonomous : Bool) (d : SeesawData) (alliance : Color)
    (start : Bool) : Except Err SeesawData :=
  if autonomous then .error (.runtimeError ("Cannot Boost during autonomous"))
  else
    .ok { d with boosted := start,
                 boost_alliance := if start then some alliance else none,
                 forced := false, force_alliance := none }

/-- `Switch.force`: delegates to the Scale behaviour only when the
alliance argument is this Switch's own alliance, otherwise a silent no-op. -/
def Switch.force (autonomous : Bool) (selfAlliance : Option Color) (d : SeesawData)
    (alliance : Color) (start : Bool) : Except Err SeesawData :=
  if some alliance = selfAlliance then Scale.force autonomous d alliance start
  else .ok d

/-- `Switch.boost`: delegates only for this Switch's own alliance. -/
def Switch.boost (autonomous : Bool) (selfAlliance : Option Color) (d : SeesawData)
    (alliance : Color) (start : Bool) : Except Err SeesawData :=
  if some alliance = selfAlliance then Scale.boost autonomous d alliance start
  else .ok d

/-- `Scale.score()` given the already computed owner: 2 points in
autonomous or when boosted by the owner, else 1; doubled on an ownership
change, which also records the new previous owner. -/
def seesawScoreStep (autonomous : Bool) (owner : Option Color) (d : SeesawData) :
    SeesawData × Score :=
  let boosted := d.boosted && (d.boost_alliance == owner)
  let value : Int := if autonomous || boosted then 2 else 1
  if owner = d.previous_owner then (d, Score.pick owner value)
  else ({ d with previous_owner := owner }, Score.pick owner (value * 2))

/-- `VaultColumn.score()`: 5 points per cube added since the last call. -/
def columnScoreStep (c : VaultColumnData) : VaultColumnData × Score :=
  ({ c with previous_cubes := c.cubes },
   Score.pick (some c.alliance) (5 * (c.cubes - c.previous_cubes)))

/-- `Vault.score()`: left fold of the column scores starting from zero,
as `sum(generator, Score.ZERO)` does. -/
def vaultScoreLoop : List VaultColumnData → Score → List VaultColumnData × Score
  | [], acc => ([], acc)
  | c :: cs, acc =>
    let p := columnScoreStep c
    let rest := vaultScoreLoop cs (Score.add acc p.2)
    (p.1 :: rest.1, rest.2)

/-- The dynamic `score()` call: `Robot.score` counts the auto-run once;
`Scale.score`/`Switch.score` use the (possibly restricted) owner;
`Vault.score` folds its columns; every other kind returns zero
(the base-class implementation). -/
def scoreOf (s : Simulation) (ag : Agent) : Agent × Score :=
  match ag.data with
  | .robot r =>
    if r.auto_run = ScoreFactor.ACHIEVED then
      ({ ag with data := .robot { r with auto_run := ScoreFactor.COUNTED } },
       Score.pick ag.alliance 5)
    else (ag, Score.ZERO)
  | .scale d =>
    let ow := d.owner (s.plateCubes d.front_plate) (s.plateCubes d.back_plate)
    let p := seesawScoreStep s.autonomous ow d
    ({ ag with data := .scale p.1 }, p.2)
  | .switch d ex =>
    let ow := switchOwner ag.alliance d (s.plateCubes d.front_plate) (s.plateCubes d.back_plate)
    let p := seesawScoreStep s.autonomous ow d
    ({ ag with data := .switch p.1 ex }, p.2)
  | .vault v =>
    let p := vaultScoreLoop v.columns Score.ZERO
    ({ ag with data := .vault { v with columns := p.1 } }, p.2)
  | _ => (ag, Score.ZERO)

/-- The `sum((agent.score() ...), self.score)` pass of `PowerUpGame.tick`,
by remaining count `n` from index `i`: calls `score()` on each agent in
registration order, stores the mutated agent, emits a ghost `scoreEv`, and
folds the results into the running total by pairwise addition. -/
def scoreLoop : Nat → Nat → Simulation → Score → Simulation × Score
  | 0, _, s, acc => (s, acc)
  | n + 1, i, s, acc =>
    match s.agents[i]? with
    | none => (s, acc)
    | some ag =>
      scoreLoop n (i + 1)
        { s with agents := s.agents.set i (scoreOf s ag).1,
                 trace := s.trace ++ [Event.scoreEv ag.name (scoreOf s ag).2] }
        (Score.add acc (scoreOf s ag).2)

/-- A `PowerUpGame`: the simulation plus the running score and the
recorded autonomous-period switch owners. -/
structure PowerUpGame where
  sim : Simulation
  score : Score
  auto_switch_owners : Score

/-- Find the Switch agent of the given alliance (`self.red_switch` /
`self.blue_switch` object references). -/
def findSwitch (s : Simulation) (c : Color) : Option Agent :=
  s.agents.find? fun ag =>
    (match ag.data with | .switch _ _ => true | _ => false) && ag.alliance == some c

/-- `self.red_switch.owner() is RED` (resp. BLUE) at the end of the
autonomous period. -/
def switchOwnerIs (s : Simulation) (c : Color) : Bool :=
  match findSwitch s c with
  | some ag =>
    match ag.data with
    | .switch d _ =>
      switchOwner ag.alliance d (s.plateCubes d.front_plate) (s.plateCubes d.back_plate)
        == some c
    | _ => false
  | none => false

/-- `PowerUpGame.tick()`: the base `Simulation.tick` (advance time and
update every agent), then record the autonomous switch owners at the
phase boundary, then poll every agent's `score()` exactly once and fold
the results into the running score starting from the previous total. -/
def PowerUpGame.tick (g : PowerUpGame) : Except Err PowerUpGame :=
  match g.sim.tick with
  | .error e => .error e
  | .ok w =>
    .ok { sim := (scoreLoop w.agents.length 0 w g.score).1,
          score := (scoreLoop w.agents.length 0 w g.score).2,
          auto_switch_owners :=
            if w.time = AUTONOMOUS_SECS then
              Score.mk (if switchOwnerIs w Color.RED then 1 else 0)
                       (if switchOwnerIs w Color.BLUE then 1 else 0)
            else g.auto_switch_owners }

/-- All actions reachable from an action value: itself, plus (for the
re-entrant `schedule_inside` closure) everything reachable from the inner
action it would schedule. -/
def ActionCode.subActions : ActionCode → List ActionCode
  | .schedule_inside seconds inner d =>
    ActionCode.schedule_inside seconds inner d :: inner.subActions
  | a => [a]

/-- All actions a decider method call can store in the agent's slot. -/
def Cmd.schedActions : Cmd → List ActionCode
  | .drive_to dest => [ActionCode.drive_arrive dest]
  | .pickup => [ActionCode.pickup_finish]
  | .drop => [ActionCode.drop_finish]
  | .place => [ActionCode.place_finish]
  | .climb => [ActionCode.climb_finish]
  | .wait _ => [ActionCode.wait_done]
  | .wait_for_teleop => [ActionCode.wait_done]
  | .set_cubes _ => []
  | .schedule _ a _ => a.subActions
  | .get_from_exchange => [ActionCode.get_from_exchange_finish]
  | .put_to_exchange => [ActionCode.put_to_exchange_finish]
  | .put_through_portal => [ActionCode.put_through_portal_finish]

/-- Actions schedulable by a list of method calls. -/
def schedActionsOfCmds : List Cmd → List ActionCode
  | [] => []
  | c :: cs => c.schedActions ++ schedActionsOfCmds cs

/-- All actions a decider can ever store. -/
def Player.playerActions : Player → List ActionCode
  | .repeatS _ => []
  | .yieldStep cmds _ rest => schedActionsOfCmds cmds ++ rest.playerActions

/-- Actions reachable from the agent's stored slot. -/
def Agent.storedActions (ag : Agent) : List ActionCode :=
  match ag.scheduled_action with
  | some a => a.subActions
  | none => []

/-- Actions reachable from the agent's attached decider. -/
def Agent.playerActionsOf (ag : Agent) : List ActionCode :=
  match ag.playerOf with
  | some p => p.playerActions
  | none => []

/-- Every action the agent can ever fire or store from its current state. -/
def Agent.agentActions (ag : Agent) : List ActionCode :=
  ag.storedActions ++ ag.playerActionsOf

/-- `A` occurs nowhere in the simulation: no agent can ever store or fire
it again (the embedding's rendering of "this closure object is no longer
referenced anywhere"). -/
def AFree (A : ActionCode) (s : Simulation) : Prop :=
  ∀ ag ∈ s.agents, A ∉ ag.agentActions

instance (A : ActionCode) (s : Simulation) : Decidable (AFree A s) := by
  unfold AFree; infer_instance

/-- Recognise the firing event of a given action. -/
def Event.isFireOf (A : ActionCode) : Event → Bool
  | .fireEv _ a => a == A
  | _ => false

/-- Count the firings of a given action in a trace. -/
def countFireA (A : ActionCode) (l : List Event) : Nat :=
  l.countP (Event.isFireOf A)

/-- Recognise `updateEv`. -/
def Event.isUpd : Event → Bool
  | .updateEv _ _ => true
  | _ => false

/-- Recognise `scoreEv`. -/
def Event.isScore : Event → Bool
  | .scoreEv _ _ => true
  | _ => false

/-- The part of the trace appended after `s` evolved into `s'`. -/
def traceDelta (s s' : Simulation) : List Event :=
  s'.trace.drop s.trace.length

/-- Structural facts about one interpreter step acting on agent `i`: the
clock and the agent-list length are untouched, agents other than `i` are
untouched, agent `i` keeps its name, and the ghost trace only grows. -/
structure Shape (i : Nat) (s s' : Simulation) : Prop where
  time_eq : s'.time = s.time
  len_eq : s'.agents.length = s.agents.length
  others : ∀ j, j ≠ i → s'.agents[j]? = s.agents[j]?
  name_i : (s'.agents[i]?).map Agent.name = (s.agents[i]?).map Agent.name
  plates_keep : ∀ l, s'.plates l = s.plates l
  tr : ∃ d, s'.trace = s.trace ++ d

/-- Structural facts about a whole update pass: the clock and the
agent-list length are untouched, every agent keeps its name, the
location-plate table is untouched, and the ghost trace only grows. -/
structure LShape (s s' : Simulation) : Prop where
  time_eq : s'.time = s.time
  len_eq : s'.agents.length = s.agents.length
  names : ∀ j : Nat, (s'.agents[j]?).map Agent.name = (s.agents[j]?).map Agent.name
  plates_keep : ∀ l, s'.plates l = s.plates l
  tr : ∃ d, s'.trace = s.trace ++ d

/-- The carried-cube count of an agent (0 for kinds that carry none). -/
def carriedCubes (ag : Agent) : Int :=
  match ag.data with
  | .robot r => r.cubes
  | .human h => h.cubes
  | _ => 0

/-- All cube counters in the simulation are nonnegative. -/
def NonnegCubes (s : Simulation) : Prop :=
  (∀ l, 0 ≤ s.cubes l) ∧ (∀ p, 0 ≤ s.plateCubes p) ∧ (∀ ag ∈ s.agents, 0 ≤ carriedCubes ag)

/-- The cube-transfer effects of claim C8 (`Robot.pickup/drop/place` and
the Human transfers). -/
def transferActions : List ActionCode :=
  [ActionCode.pickup_finish, ActionCode.drop_finish, ActionCode.place_finish,
   ActionCode.get_from_exchange_finish, ActionCode.put_to_exchange_finish,
   ActionCode.put_through_portal_finish]

/-! ### Concrete fixtures used by witnesses and counterexamples -/

/-- A plain base-class Agent as the unit tests build directly. -/
def simpleAgent : Agent :=
  { name := ("A Agent"), alliance := none, position := ("A"), eta := none,
    scheduled_action := none, scheduled_action_description := (""), data := AgentData.base }

/-- A one-agent simulation with an empty field. -/
def sim0 : Simulation :=
  { time := 0, agents := [simpleAgent], cubes := fun _ => 0,
    plateCubes := fun _ => 0, plates := fun _ => none, trace := [] }

/-- The result of one tick of `sim0`. -/
def sim0after : Simulation :=
  { time := 1, agents := [simpleAgent], cubes := fun _ => 0,
    plateCubes := fun _ => 0, plates := fun _ => none,
    trace := [Event.updateEv ("A Agent") 1] }

/-- The result of two ticks of `sim0`. -/
def sim2after : Simulation :=
  { time := 2, agents := [simpleAgent], cubes := fun _ => 0,
    plateCubes := fun _ => 0, plates := fun _ => none,
    trace := [Event.updateEv ("A Agent") 1, Event.updateEv ("A Agent") 2] }

/-- A base agent holding a scheduled action (the one about to be replaced). -/
def c2agent : Agent :=
  { name := ("RED 1 Robot"), alliance := some Color.RED, position := ("1"),
    eta := some 5, scheduled_action := some (ActionCode.noop 7),
    scheduled_action_description := ("pickup"), data := AgentData.base }

/-- A one-agent simulation holding `c2agent`. -/
def c2sim : Simulation :=
  { time := 0, agents := [c2agent], cubes := fun _ => 0,
    plateCubes := fun _ => 0, plates := fun _ => none, trace := [] }

/-- State after four ticks of `c2sim` with the replacement action
(`noop 8`, delay 3) scheduled at time 0: the replacement fired at time 3,
the replaced `noop 7` never did. -/
def c2after : Simulation :=
  { time := 4,
    agents := [{ c2agent with eta := none, scheduled_action := none,
                              scheduled_action_description := ("") }],
    cubes := fun _ => 0, plateCubes := fun _ => 0, plates := fun _ => none,
    trace := [Event.updateEv ("RED 1 Robot") 1, Event.updateEv ("RED 1 Robot") 2,
              Event.updateEv ("RED 1 Robot") 3,
              Event.fireEv ("RED 1 Robot") (ActionCode.noop 8),
              Event.updateEv ("RED 1 Robot") 4] }

/-- Robot state whose decider's next step is a wait. -/
def c3robotData : RobotData :=
  { extra_drive_time := 0, pickup_time := 1, drop_time := 1, place_time := 2,
    climb_time := 4, location := Location.RED_OUTER_ZONE, cubes := 0,
    climbed := Climbed.notClimbed, auto_run := ScoreFactor.NOT_YET, behavior := (""),
    player := Player.yieldStep [Cmd.wait 2] ("turning") (Player.repeatS ("done")) }

/-- A robot with a pending effect-free action due at time 1. -/
def c3robot : Agent :=
  { name := ("RED 1 Robot"), alliance := some Color.RED, position := ("1"),
    eta := some 1, scheduled_action := some (ActionCode.noop 1),
    scheduled_action_description := ("noop"), data := AgentData.robot c3robotData }

/-- One-robot simulation for the effect-then-hook ordering check. -/
def c3sim : Simulation :=
  { time := 0, agents := [c3robot], cubes := fun _ => 0, plateCubes := fun _ => 0,
    plates := fun _ => none, trace := [] }

/-- A base agent whose stored effect re-entrantly schedules another action. -/
def c3bagent : Agent :=
  { name := ("B Agent"), alliance := none, position := ("B"), eta := some 1,
    scheduled_action := some (ActionCode.schedule_inside 5 (ActionCode.noop 9) ("inner")),
    scheduled_action_description := ("outer"), data := AgentData.base }

/-- One-agent simulation for the re-entrant scheduling check. -/
def c3bsim : Simulation :=
  { time := 0, agents := [c3bagent], cubes := fun _ => 0, plateCubes := fun _ => 0,
    plates := fun _ => none, trace := [] }

/-- Robot state with the initial no-op decider (`itertools.repeat`). -/
def c4robotData : RobotData :=
  { extra_drive_time := 0, pickup_time := 1, drop_time := 1, place_time := 2,
    climb_time := 4, location := Location.RED_OUTER_ZONE, cubes := 0,
    climbed := Climbed.notClimbed, auto_run := ScoreFactor.NOT_YET, behavior := (""),
    player := Player.repeatS ("--") }

/-- A freshly constructed robot: nothing scheduled yet. -/
def c4robot : Agent :=
  { name := ("RED 2 Robot"), alliance := some Color.RED, position := ("2"),
    eta := none, scheduled_action := none, scheduled_action_description := (""),
    data := AgentData.robot c4robotData }

/-- A decider whose first step schedules a wait. -/
def c4player : Player :=
  Player.yieldStep [Cmd.wait 3] ("first step") (Player.repeatS ("done"))

/-- One-robot simulation right after `set_player`. -/
def c4sim : Simulation :=
  { time := 0, agents := [set_player c4robot c4player], cubes := fun _ => 0,
    plateCubes := fun _ => 0, plates := fun _ => none, trace := [] }

/-- The same simulation with the clock already advanced to 1 by a tick. -/
def c4sim1 : Simulation :=
  { time := 1, agents := [set_player c4robot c4player], cubes := fun _ => 0,
    plateCubes := fun _ => 0, plates := fun _ => none, trace := [] }

/-- The state of `c4sim1` after `update(1)` found no scheduled action and
resumed the decider exactly once, which scheduled the wait. -/
def c4after : Simulation :=
  { time := 1,
    agents := [{ name := ("RED 2 Robot"), alliance := some Color.RED, position := ("2"),
                 eta := some 4, scheduled_action := some ActionCode.wait_done,
                 scheduled_action_description := ("wait"),
                 data := AgentData.robot { c4robotData with
                   player := Player.repeatS ("done"), behavior := ("first step") } }],
    cubes := fun _ => 0, plateCubes := fun _ => 0, plates := fun _ => none,
    trace := [Event.updateEv ("RED 2 Robot") 1, Event.driveEv ("RED 2 Robot")] }

/-- A plain base agent with nothing scheduled, used for the delay
round-trip checks. -/
def c5zagent : Agent :=
  { name := ("Z Agent"), alliance := none, position := ("Z"), eta := none,
    scheduled_action := none, scheduled_action_description := (""),
    data := AgentData.base }

/-- One-agent simulation at time 0 for the delay round-trip checks. -/
def c5zsim : Simulation :=
  { time := 0, agents := [c5zagent], cubes := fun _ => 0,
    plateCubes := fun _ => 0, plates := fun _ => none, trace := [] }

/-- The state of `c5zsim` three ticks after scheduling `noop 3` with
delay 2 at time 0: the effect fired during the update of the tick that
set `time = 2`, exactly once, and the slot was cleared back. -/
def c5after : Simulation :=
  { time := 3, agents := [c5zagent], cubes := fun _ => 0,
    plateCubes := fun _ => 0, plates := fun _ => none,
    trace := [Event.updateEv ("Z Agent") 1, Event.updateEv ("Z Agent") 2,
              Event.fireEv ("Z Agent") (ActionCode.noop 3),
              Event.updateEv ("Z Agent") 3] }

/-- A one-agent game over `sim0` with a zero running score. -/
def c7game : PowerUpGame :=
  { sim := sim0, score := Score.ZERO, auto_switch_owners := Score.ZERO }

/-- The game `c7game` after one `PowerUpGame.tick`: the agent was updated
with the new time, then scored exactly once (zero points). -/
def c7game2 : PowerUpGame :=
  { sim := { time := 1, agents := [simpleAgent], cubes := fun _ => 0,
             plateCubes := fun _ => 0, plates := fun _ => none,
             trace := [Event.updateEv ("A Agent") 1,
                       Event.scoreEv ("A Agent") Score.ZERO] },
    score := Score.ZERO, auto_switch_owners := Score.ZERO }

/-- Robot timing/state template for the shared-counter scenario. -/
def c8robotData : RobotData :=
  { extra_drive_time := 0, pickup_time := 2, drop_time := 2, place_time := 2,
    climb_time := 2, location := Location.RED_OUTER_ZONE, cubes := 0,
    climbed := Climbed.notClimbed, auto_run := ScoreFactor.NOT_YET, behavior := (""),
    player := Player.repeatS ("idle") }

/-- Robot A: its pickup effect is due at time 1. -/
def c8robotA : Agent :=
  { name := ("RED A Robot"), alliance := some Color.RED, position := ("A"),
    eta := some 1, scheduled_action := some ActionCode.pickup_finish,
    scheduled_action_description := ("pickup"), data := AgentData.robot c8robotData }

/-- Robot B: the same pickup effect due at the same time, updated second. -/
def c8robotB : Agent :=
  { name := ("RED B Robot"), alliance := some Color.RED, position := ("B"),
    eta := some 1, scheduled_action := some ActionCode.pickup_finish,
    scheduled_action_description := ("pickup"), data := AgentData.robot c8robotData }

/-- Two robots sharing one location that holds a single cube. -/
def c8sim : Simulation :=
  { time := 0, agents := [c8robotA, c8robotB],
    cubes := fun l => if l = Location.RED_OUTER_ZONE then 1 else 0,
    plateCubes := fun _ => 0, plates := fun _ => none, trace := [] }

/-- A RED switch seesaw in its initial state. -/
def c9seesaw : SeesawData :=
  { front_color := Color.RED, front_plate := PlateId.switchFront Color.RED,
    back_plate := PlateId.switchBack Color.RED, forced := false,
    force_alliance := none, boosted := false, boost_alliance := none,
    previous_owner := none }

/-- A time-zero simulation (autonomous phase) with no agents, used to
anchor the phase predicate. -/
def c9sim : Simulation :=
  { time := 0, agents := [], cubes := fun _ => 0, plateCubes := fun _ => 0,
    plates := fun _ => none, trace := [] }

/-- Robot template for the scheduling-time-refusal checks: off-platform,
not climbed. -/
def c10robotData : RobotData :=
  { extra_drive_time := 0, pickup_time := 3, drop_time := 3, place_time := 3,
    climb_time := 3, location := Location.RED_OUTER_ZONE, cubes := 0,
    climbed := Climbed.notClimbed, auto_run := ScoreFactor.NOT_YET, behavior := (""),
    player := Player.repeatS ("idle") }

/-- A robot with an action already pending (the one a refusal must not
disturb). -/
def c10robot : Agent :=
  { name := ("RED C Robot"), alliance := some Color.RED, position := ("C"),
    eta := some 9, scheduled_action := some (ActionCode.noop 2),
    scheduled_action_description := ("old"), data := AgentData.robot c10robotData }

/-- One-robot simulation for the refusal checks. -/
def c10sim : Simulation :=
  { time := 0, agents := [c10robot], cubes := fun _ => 0, plateCubes := fun _ => 0,
    plates := fun _ => none, trace := [] }

/-- The same robot template after climbing. -/
def c10crobotData : RobotData :=
  { c10robotData with climbed := Climbed.Climbed }

/-- A climbed robot with an action still pending. -/
def c10crobot : Agent :=
  { c10robot with data := AgentData.robot c10crobotData }

/-- One-robot simulation holding the climbed robot. -/
def c10csim : Simulation :=
  { time := 0, agents := [c10crobot], cubes := fun _ => 0, plateCubes := fun _ => 0,
    plates := fun _ => none, trace := [] }

/-! ### Structural lemmas about the primitive state transformers -/

theorem modifyAgent_time (s : Simulation) (i : Nat) (f : Agent → Agent) :
    (modifyAgent s i f).time = s.time := by
  unfold modifyAgent; split <;> rfl

theorem modifyAgent_trace (s : Simulation) (i : Nat) (f : Agent → Agent) :
    (modifyAgent s i f).trace = s.trace := by
  unfold modifyAgent; split <;> rfl

theorem modifyAgent_cubes (s : Simulation) (i : Nat) (f : Agent → Agent) :
    (modifyAgent s i f).cubes = s.cubes := by
  unfold modifyAgent; split <;> rfl

theorem modifyAgent_plateCubes (s : Simulation) (i : Nat) (f : Agent → Agent) :
    (modifyAgent s i f).plateCubes = s.plateCubes := by
  unfold modifyAgent; split <;> rfl

theorem modifyAgent_plates (s : Simulation) (i : Nat) (f : Agent → Agent) :
    (modifyAgent s i f).plates = s.plates := by
  unfold modifyAgent; split <;> rfl

theorem modifyAgent_length (s : Simulation) (i : Nat) (f : Agent → Agent) :
    (modifyAgent s i f).agents.length = s.agents.length := by
  unfold modifyAgent; split <;> simp

theorem modifyAgent_getElem_ne (s : Simulation) (i : Nat) (f : Agent → Agent)
    {j : Nat} (h : j ≠ i) : (modifyAgent s i f).agents[j]? = s.agents[j]? := by
  unfold modifyAgent; split
  · rfl
  · next ag heq =>
      show (s.agents.set i (f ag))[j]? = s.agents[j]?
      exact List.getElem?_set_ne (Ne.symm h)

theorem modifyAgent_getElem_self {s : Simulation} {i : Nat} (f : Agent → Agent)
    {ag : Agent} (hag : s.agents[i]? = some ag) :
    (modifyAgent s i f).agents[i]? = some (f ag) := by
  unfold modifyAgent
  rw [hag]
  have hlt : i < s.agents.length := (List.getElem?_eq_some.mp hag).1
  simp [List.getElem?_set_self hlt]

theorem modifyAgent_getElem_none {s : Simulation} {i : Nat} (f : Agent → Agent)
    (hag : s.agents[i]? = none) : modifyAgent s i f = s := by
  unfold modifyAgent; rw [hag]

theorem emit_agents (s : Simulation) (e : Event) : (emit s e).agents = s.agents := rfl

theorem emit_time (s : Simulation) (e : Event) : (emit s e).time = s.time := rfl

theorem emit_trace (s : Simulation) (e : Event) : (emit s e).trace = s.trace ++ [e] := rfl

theorem setLocCubes_agents (s : Simulation) (l : Location) (n : Int) :
    (setLocCubes s l n).agents = s.agents := rfl

theorem setLocCubes_time (s : Simulation) (l : Location) (n : Int) :
    (setLocCubes s l n).time = s.time := rfl

theorem setLocCubes_trace (s : Simulation) (l : Location) (n : Int) :
    (setLocCubes s l n).trace = s.trace := rfl

theorem setPlateCubes_agents (s : Simulation) (p : PlateId) (n : Int) :
    (setPlateCubes s p n).agents = s.agents := rfl

theorem setPlateCubes_time (s : Simulation) (p : PlateId) (n : Int) :
    (setPlateCubes s p n).time = s.time := rfl

theorem setPlateCubes_trace (s : Simulation) (p : PlateId) (n : Int) :
    (setPlateCubes s p n).trace = s.trace := rfl

theorem setCubesField_name (a : Agent) (n : Int) : (setCubesField a n).name = a.name := by
  unfold setCubesField; split <;> rfl

theorem setPlayerBehavior_name (a : Agent) (p : Player) (b : String) :
    (setPlayerBehavior a p b).name = a.name := by
  unfold setPlayerBehavior; split <;> rfl

theorem set_player_name (a : Agent) (g : Player) : (set_player a g).name = a.name := by
  unfold set_player; split <;> rfl

/-! ### Shape lemmas: each interpreter operation only grows the trace,
keeps the clock, the agent count, the other agents, and agent names -/

theorem Shape.refl (i : Nat) (s : Simulation) : Shape i s s :=
  ⟨rfl, rfl, fun _ _ => rfl, rfl, fun _ => rfl, ⟨[], by simp⟩⟩

theorem Shape.comp {i : Nat} {s s1 s2 : Simulation} (h1 : Shape i s s1)
    (h2 : Shape i s1 s2) : Shape i s s2 := by
  refine ⟨h2.time_eq.trans h1.time_eq, h2.len_eq.trans h1.len_eq,
    fun j hj => (h2.others j hj).trans (h1.others j hj),
    h2.name_i.trans h1.name_i,
    fun l => (h2.plates_keep l).trans (h1.plates_keep l), ?_⟩
  obtain ⟨d1, hd1⟩ := h1.tr
  obtain ⟨d2, hd2⟩ := h2.tr
  exact ⟨d1 ++ d2, by rw [hd2, hd1, List.append_assoc]⟩

theorem Shape.comp2 {i : Nat} {s s1 s2 : Simulation} (h2 : Shape i s1 s2)
    (h1 : Shape i s s1) : Shape i s s2 := h1.comp h2

theorem shape_modifyAgent (s : Simulation) (i : Nat) (f : Agent → Agent)
    (hf : ∀ a, (f a).name = a.name) : Shape i s (modifyAgent s i f) := by
  refine ⟨modifyAgent_time s i f, modifyAgent_length s i f,
    fun j hj => modifyAgent_getElem_ne s i f hj, ?_,
    fun l => by rw [modifyAgent_plates], ⟨[], by rw [modifyAgent_trace]; simp⟩⟩
  cases hag : s.agents[i]? with
  | none => rw [modifyAgent_getElem_none f hag, hag]
  | some ag => rw [modifyAgent_getElem_self f hag]; simp [hf]

theorem shape_emit (s : Simulation) (i : Nat) (e : Event) : Shape i s (emit s e) :=
  ⟨rfl, rfl, fun _ _ => rfl, rfl, fun _ => rfl, ⟨[e], rfl⟩⟩

theorem shape_setLocCubes (s : Simulation) (i : Nat) (l : Location) (n : Int) :
    Shape i s (setLocCubes s l n) :=
  ⟨rfl, rfl, fun _ _ => rfl, rfl, fun _ => rfl, ⟨[], by simp [setLocCubes]⟩⟩

theorem shape_setPlateCubes (s : Simulation) (i : Nat) (p : PlateId) (n : Int) :
    Shape i s (setPlateCubes s p n) :=
  ⟨rfl, rfl, fun _ _ => rfl, rfl, fun _ => rfl, ⟨[], by simp [setPlateCubes]⟩⟩

theorem shape_emit_mod (s : Simulation) (i : Nat) (e : Event) (f : Agent → Agent)
    (hf : ∀ a, (f a).name = a.name) : Shape i s (modifyAgent (emit s e) i f) :=
  (shape_emit s i e).comp (shape_modifyAgent _ _ _ hf)

theorem shape_mod_setLoc (s : Simulation) (i : Nat) (f : Agent → Agent)
    (hf : ∀ a, (f a).name = a.name) (l : Location) (n : Int) :
    Shape i s (setLocCubes (modifyAgent s i f) l n) :=
  (shape_modifyAgent s i f hf).comp (shape_setLocCubes ..)

theorem shape_mod_setPlate (s : Simulation) (i : Nat) (f : Agent → Agent)
    (hf : ∀ a, (f a).name = a.name) (p : PlateId) (n : Int) :
    Shape i s (setPlateCubes (modifyAgent s i f) p n) :=
  (shape_modifyAgent s i f hf).comp (shape_setPlateCubes ..)

theorem shape_schedule_actionAt (s : Simulation) (i : Nat) (seconds : Int)
    (a : ActionCode) (d : String) : Shape i s (schedule_actionAt s i seconds a d) :=
  shape_modifyAgent s i _ (fun _ => rfl)

theorem shape_waitAt (s : Simulation) (i : Nat) (seconds : Int) :
    Shape i s (waitAt s i seconds) :=
  shape_schedule_actionAt s i (max seconds 1) ActionCode.wait_done ("wait")

theorem shape_wait_for_teleopAt (s : Simulation) (i : Nat) :
    Shape i s (wait_for_teleopAt s i) := by
  unfold wait_for_teleopAt
  split
  · exact shape_schedule_actionAt ..
  · exact Shape.refl i s

theorem shape_runCmd {s s' : Simulation} {i : Nat} {c : Cmd}
    (h : runCmd s i c = .ok s') : Shape i s s' := by
  unfold runCmd at h
  split at h
  · injection h with h; subst h; exact Shape.refl ..
  · cases c <;> simp only [] at h
    case wait seconds =>
      injection h with h; subst h; exact shape_waitAt ..
    case wait_for_teleop =>
      injection h with h; subst h; exact shape_wait_for_teleopAt ..
    case schedule seconds a d =>
      injection h with h; subst h; exact shape_schedule_actionAt ..
    case set_cubes n =>
      injection h with h; subst h
      exact shape_modifyAgent s i _ (fun a => setCubesField_name a n)
    case drive_to dest =>
      split at h
      · split at h
        · injection h with h; subst h; exact Shape.refl ..
        · split at h
          · injection h
          · injection h with h; subst h; exact shape_schedule_actionAt ..
      · injection h with h; subst h; exact Shape.refl ..
    case pickup =>
      split at h
      · injection h with h; subst h; exact shape_schedule_actionAt ..
      · injection h with h; subst h; exact Shape.refl ..
    case drop =>
      split at h
      · injection h with h; subst h; exact shape_schedule_actionAt ..
      · injection h with h; subst h; exact Shape.refl ..
    case place =>
      split at h
      · injection h with h; subst h; exact shape_schedule_actionAt ..
      · injection h with h; subst h; exact Shape.refl ..
    case climb =>
      split at h
      · split at h
        · injection h with h; subst h; exact shape_schedule_actionAt ..
        · injection h with h; subst h; exact Shape.refl ..
      · injection h with h; subst h; exact Shape.refl ..
    case get_from_exchange =>
      split at h
      · injection h with h; subst h; exact shape_schedule_actionAt ..
      · injection h with h; subst h; exact Shape.refl ..
    case put_to_exchange =>
      split at h
      · injection h with h; subst h; exact shape_schedule_actionAt ..
      · injection h with h; subst h; exact Shape.refl ..
    case put_through_portal =>
      split at h
      · injection h with h; subst h; exact shape_schedule_actionAt ..
      · injection h with h; subst h; exact Shape.refl ..

theorem shape_runCmds {i : Nat} : ∀ {cs : List Cmd} {s s' : Simulation},
    runCmds s i cs = .ok s' → Shape i s s'
  | [], s, s', h => by
    unfold runCmds at h; injection h with h; subst h; exact Shape.refl ..
  | c :: cs, s, s', h => by
    unfold runCmds at h
    split at h
    · injection h
    · next s1 heq => exact (shape_runCmd heq).comp (shape_runCmds h)

theorem shape_playerNext {s s' : Simulation} {i : Nat}
    (h : playerNext s i = .ok s') : Shape i s s' := by
  unfold playerNext at h
  split at h
  · injection h with h; subst h; exact Shape.refl ..
  · split at h
    · injection h with h; subst h; exact shape_emit ..
    · injection h with h; subst h
      apply shape_emit_mod
      intro a
      exact setPlayerBehavior_name ..
    · split at h
      · injection h
      · next s2 heq =>
        injection h with h; subst h
        refine ((shape_emit ..).comp (shape_runCmds heq)).comp ?_
        apply shape_modifyAgent
        intro a
        exact setPlayerBehavior_name ..

theorem shape_runAction {s s' : Simulation} {i : Nat} {a : ActionCode}
    (h : runAction s i a = .ok s') : Shape i s s' := by
  unfold runAction at h
  split at h
  · injection h with h; subst h; exact Shape.refl ..
  · cases a <;> simp only [] at h
    case wait_done =>
      injection h with h; subst h; exact Shape.refl ..
    case noop id =>
      injection h with h; subst h; exact Shape.refl ..
    case schedule_inside seconds inner d =>
      injection h with h; subst h; exact shape_schedule_actionAt ..
    case pickup_finish =>
      split at h
      · split at h
        · injection h with h; subst h
          apply shape_mod_setLoc
          intro a
          rfl
        · injection h with h; subst h; exact Shape.refl ..
      · injection h with h; subst h; exact Shape.refl ..
    case drop_finish =>
      split at h
      · split at h
        · injection h with h; subst h
          apply shape_mod_setLoc
          intro a
          rfl
        · injection h with h; subst h; exact Shape.refl ..
      · injection h with h; subst h; exact Shape.refl ..
    case place_finish =>
      split at h
      · split at h
        · split at h
          · injection h with h; subst h
            apply shape_mod_setPlate
            intro a
            rfl
          · injection h with h; subst h; exact Shape.refl ..
        · injection h with h; subst h; exact Shape.refl ..
      · injection h with h; subst h; exact Shape.refl ..
    case climb_finish =>
      split at h
      · split at h
        · injection h with h; subst h
          apply shape_modifyAgent
          intro a
          rfl
        · injection h with h; subst h; exact Shape.refl ..
      · injection h with h; subst h; exact Shape.refl ..
    case drive_arrive dest =>
      split at h
      · injection h with h; subst h
        apply shape_modifyAgent
        intro a
        rfl
      · injection h with h; subst h; exact Shape.refl ..
    case get_from_exchange_finish =>
      split at h
      · split at h
        · injection h
        · split at h
          · injection h with h; subst h
            apply shape_mod_setPlate
            intro a
            rfl
          · injection h with h; subst h; exact Shape.refl ..
      · injection h with h; subst h; exact Shape.refl ..
    case put_to_exchange_finish =>
      split at h
      · split at h
        · split at h
          · injection h
          · injection h with h; subst h
            apply shape_mod_setLoc
            intro a
            rfl
        · injection h with h; subst h; exact Shape.refl ..
      · injection h with h; subst h; exact Shape.refl ..
    case put_through_portal_finish =>
      split at h
      · split at h
        · split at h
          · injection h
          · injection h with h; subst h
            apply shape_mod_setLoc
            intro a
            rfl
        · injection h with h; subst h; exact Shape.refl ..
      · injection h with h; subst h; exact Shape.refl ..

theorem shape_scheduled_action_doneAt {s s' : Simulation} {i : Nat}
    (h : scheduled_action_doneAt s i = .ok s') : Shape i s s' := by
  unfold scheduled_action_doneAt at h
  split at h
  · injection h with h; subst h; exact Shape.refl ..
  · split at h
    · exact shape_playerNext h
    · exact shape_playerNext h
    · injection h with h; subst h; exact Shape.refl ..

theorem shape_baseUpdateAt {s s' : Simulation} {i : Nat} {time : Int}
    (h : baseUpdateAt s i time = .ok s') : Shape i s s' := by
  unfold baseUpdateAt at h
  split at h
  · injection h with h; subst h; exact Shape.refl ..
  · split at h
    · split at h
      · injection h
      · split at h
        · injection h
        · next s3 heq =>
          refine (Shape.comp (Shape.comp ?_ (shape_runAction heq))
            (shape_scheduled_action_doneAt h))
          refine Shape.comp ?_ (shape_emit ..)
          apply shape_modifyAgent
          intro a
          rfl
    · injection h with h; subst h; exact Shape.refl ..

theorem shape_updateAt {s s' : Simulation} {i : Nat} {time : Int}
    (h : updateAt s i time = .ok s') : Shape i s s' := by
  unfold updateAt at h
  split at h
  · injection h with h; subst h; exact Shape.refl ..
  · split at h
    · split at h
      · split at h
        · injection h
        · next s2 heq =>
          exact ((shape_emit ..).comp (shape_playerNext heq)).comp (shape_baseUpdateAt h)
      · exact (shape_emit ..).comp (shape_baseUpdateAt h)
    · split at h
      · split at h
        · injection h
        · next s2 heq =>
          exact ((shape_emit ..).comp (shape_playerNext heq)).comp (shape_baseUpdateAt h)
      · exact (shape_emit ..).comp (shape_baseUpdateAt h)
    · exact (shape_emit ..).comp (shape_baseUpdateAt h)

theorem Shape.toLShape {i : Nat} {s s' : Simulation} (h : Shape i s s') : LShape s s' := by
  refine ⟨h.time_eq, h.len_eq, fun j => ?_, h.plates_keep, h.tr⟩
  by_cases hj : j = i
  · subst hj; exact h.name_i
  · rw [h.others j hj]

theorem LShape.lrefl (s : Simulation) : LShape s s :=
  ⟨rfl, rfl, fun _ => rfl, fun _ => rfl, ⟨[], by simp⟩⟩

theorem LShape.lcomp {s s1 s2 : Simulation} (h1 : LShape s s1) (h2 : LShape s1 s2) :
    LShape s s2 := by
  refine ⟨h2.time_eq.trans h1.time_eq, h2.len_eq.trans h1.len_eq,
    fun j => (h2.names j).trans (h1.names j),
    fun l => (h2.plates_keep l).trans (h1.plates_keep l), ?_⟩
  obtain ⟨d1, hd1⟩ := h1.tr
  obtain ⟨d2, hd2⟩ := h2.tr
  exact ⟨d1 ++ d2, by rw [hd2, hd1, List.append_assoc]⟩

theorem lshape_updateLoop {time : Int} : ∀ {n i : Nat} {s s' : Simulation},
    updateLoop time n i s = .ok s' → LShape s s'
  | 0, i, s, s', h => by
    unfold updateLoop at h; injection h with h; subst h; exact LShape.lrefl s
  | n + 1, i, s, s', h => by
    unfold updateLoop at h
    split at h
    · injection h
    · next s1 heq => exact (shape_updateAt heq).toLShape.lcomp (lshape_updateLoop h)

theorem LShape.names_list {s s' : Simulation} (h : LShape s s') :
    s'.agents.map Agent.name = s.agents.map Agent.name := by
  apply List.ext_getElem?
  intro j
  simpa using h.names j

/-! ### Action-closure bookkeeping: what an operation can store or fire -/

theorem subActions_self (a : ActionCode) : a ∈ a.subActions := by
  cases a <;> simp [ActionCode.subActions]

theorem schedule_actionAt_getElem_self {s : Simulation} {i : Nat} {ag : Agent}
    (hag : s.agents[i]? = some ag) (seconds : Int) (a : ActionCode) (d : String) :
    (schedule_actionAt s i seconds a d).agents[i]? =
      some { ag with eta := some (s.time + seconds), scheduled_action := some a,
                     scheduled_action_description := d } :=
  modifyAgent_getElem_self _ hag

theorem agentActions_schedule (ag : Agent) (t : Int) (a : ActionCode) (d : String) :
    ({ ag with eta := some t, scheduled_action := some a,
               scheduled_action_description := d } : Agent).agentActions
      = a.subActions ++ ag.playerActionsOf := rfl

theorem setCubesField_actions (a : Agent) (n : Int) :
    (setCubesField a n).agentActions = a.agentActions := by
  unfold setCubesField
  split
  · next r heq =>
    simp [Agent.agentActions, Agent.storedActions, Agent.playerActionsOf, Agent.playerOf, heq]
  · next hdata heq =>
    simp [Agent.agentActions, Agent.storedActions, Agent.playerActionsOf, Agent.playerOf, heq]
  · rfl

theorem setPlayerBehavior_actions_sub (ag : Agent) (p : Player) (b : String) :
    ∀ x ∈ (setPlayerBehavior ag p b).agentActions,
      x ∈ ag.storedActions ++ p.playerActions ∨ x ∈ ag.agentActions := by
  unfold setPlayerBehavior
  split
  · next r heq =>
    intro x hx
    left
    simpa [Agent.agentActions, Agent.storedActions, Agent.playerActionsOf,
      Agent.playerOf, heq] using hx
  · next hdata heq =>
    intro x hx
    left
    simpa [Agent.agentActions, Agent.storedActions, Agent.playerActionsOf,
      Agent.playerOf, heq] using hx
  · exact fun x hx => Or.inr hx

theorem runCmd_actions {s s' : Simulation} {i : Nat} {c : Cmd}
    (h : runCmd s i c = .ok s') {ag' : Agent} (hag' : s'.agents[i]? = some ag') :
    ∃ ag, s.agents[i]? = some ag ∧
      ∀ x ∈ ag'.agentActions, x ∈ c.schedActions ∨ x ∈ ag.agentActions := by
  unfold runCmd at h
  split at h
  · injection h with h; subst h
    exact ⟨ag', hag', fun x hx => Or.inr hx⟩
  · next ag hag =>
    cases c <;> simp only [] at h
    case wait seconds =>
      injection h with h; subst h
      rw [waitAt, schedule_actionAt_getElem_self hag] at hag'
      injection hag' with hag'; subst hag'
      refine ⟨ag, hag, fun x hx => ?_⟩
      rw [agentActions_schedule] at hx
      rcases List.mem_append.mp hx with hl | hr
      · exact Or.inl hl
      · exact Or.inr (List.mem_append_right _ hr)
    case wait_for_teleop =>
      rw [wait_for_teleopAt] at h
      split at h
      · injection h with h; subst h
        rw [schedule_actionAt_getElem_self hag] at hag'
        injection hag' with hag'; subst hag'
        refine ⟨ag, hag, fun x hx => ?_⟩
        rw [agentActions_schedule] at hx
        rcases List.mem_append.mp hx with hl | hr
        · exact Or.inl hl
        · exact Or.inr (List.mem_append_right _ hr)
      · injection h with h; subst h
        exact ⟨ag', hag', fun x hx => Or.inr hx⟩
    case schedule seconds a d =>
      injection h with h; subst h
      rw [schedule_actionAt_getElem_self hag] at hag'
      injection hag' with hag'; subst hag'
      refine ⟨ag, hag, fun x hx => ?_⟩
      rw [agentActions_schedule] at hx
      rcases List.mem_append.mp hx with hl | hr
      · exact Or.inl hl
      · exact Or.inr (List.mem_append_right _ hr)
    case set_cubes n =>
      injection h with h; subst h
      rw [modifyAgent_getElem_self _ hag] at hag'
      injection hag' with hag'; subst hag'
      refine ⟨ag, hag, fun x hx => ?_⟩
      rw [setCubesField_actions] at hx
      exact Or.inr hx
    case drive_to dest =>
      split at h
      · split at h
        · injection h with h; subst h
          exact ⟨ag', hag', fun x hx => Or.inr hx⟩
        · split at h
          · injection h
          · injection h with h; subst h
            rw [schedule_actionAt_getElem_self hag] at hag'
            injection hag' with hag'; subst hag'
            refine ⟨ag, hag, fun x hx => ?_⟩
            rw [agentActions_schedule] at hx
            rcases List.mem_append.mp hx with hl | hr
            · exact Or.inl hl
            · exact Or.inr (List.mem_append_right _ hr)
      · injection h with h; subst h
        exact ⟨ag', hag', fun x hx => Or.inr hx⟩
    case pickup =>
      split at h
      · injection h with h; subst h
        rw [schedule_actionAt_getElem_self hag] at hag'
        injection hag' with hag'; subst hag'
        refine ⟨ag, hag, fun x hx => ?_⟩
        rw [agentActions_schedule] at hx
        rcases List.mem_append.mp hx with hl | hr
        · exact Or.inl hl
        · exact Or.inr (List.mem_append_right _ hr)
      · injection h with h; subst h
        exact ⟨ag', hag', fun x hx => Or.inr hx⟩
    case drop =>
      split at h
      · injection h with h; subst h
        rw [schedule_actionAt_getElem_self hag] at hag'
        injection hag' with hag'; subst hag'
        refine ⟨ag, hag, fun x hx => ?_⟩
        rw [agentActions_schedule] at hx
        rcases List.mem_append.mp hx with hl | hr
        · exact Or.inl hl
        · exact Or.inr (List.mem_append_right _ hr)
      · injection h with h; subst h
        exact ⟨ag', hag', fun x hx => Or.inr hx⟩
    case place =>
      split at h
      · injection h with h; subst h
        rw [schedule_actionAt_getElem_self hag] at hag'
        injection hag' with hag'; subst hag'
        refine ⟨ag, hag, fun x hx => ?_⟩
        rw [agentActions_schedule] at hx
        rcases List.mem_append.mp hx with hl | hr
        · exact Or.inl hl
        · exact Or.inr (List.mem_append_right _ hr)
      · injection h with h; subst h
        exact ⟨ag', hag', fun x hx => Or.inr hx⟩
    case climb =>
      split at h
      · split at h
        · injection h with h; subst h
          rw [schedule_actionAt_getElem_self hag] at hag'
          injection hag' with hag'; subst hag'
          refine ⟨ag, hag, fun x hx => ?_⟩
          rw [agentActions_schedule] at hx
          rcases List.mem_append.mp hx with hl | hr
          · exact Or.inl hl
          · exact Or.inr (List.mem_append_right _ hr)
        · injection h with h; subst h
          exact ⟨ag', hag', fun x hx => Or.inr hx⟩
      · injection h with h; subst h
        exact ⟨ag', hag', fun x hx => Or.inr hx⟩
    case get_from_exchange =>
      split at h
      · injection h with h; subst h
        rw [schedule_actionAt_getElem_self hag] at hag'
        injection hag' with hag'; subst hag'
        refine ⟨ag, hag, fun x hx => ?_⟩
        rw [agentActions_schedule] at hx
        rcases List.mem_append.mp hx with hl | hr
        · exact Or.inl hl
        · exact Or.inr (List.mem_append_right _ hr)
      · injection h with h; subst h
        exact ⟨ag', hag', fun x hx => Or.inr hx⟩
    case put_to_exchange =>
      split at h
      · injection h with h; subst h
        rw [schedule_actionAt_getElem_self hag] at hag'
        injection hag' with hag'; subst hag'
        refine ⟨ag, hag, fun x hx => ?_⟩
        rw [agentActions_schedule] at hx
        rcases List.mem_append.mp hx with hl | hr
        · exact Or.inl hl
        · exact Or.inr (List.mem_append_right _ hr)
      · injection h with h; subst h
        exact ⟨ag', hag', fun x hx => Or.inr hx⟩
    case put_through_portal =>
      split at h
      · injection h with h; subst h
        rw [schedule_actionAt_getElem_self hag] at hag'
        injection hag' with hag'; subst hag'
        refine ⟨ag, hag, fun x hx => ?_⟩
        rw [agentActions_schedule] at hx
        rcases List.mem_append.mp hx with hl | hr
        · exact Or.inl hl
        · exact Or.inr (List.mem_append_right _ hr)
      · injection h with h; subst h
        exact ⟨ag', hag', fun x hx => Or.inr hx⟩

theorem runCmds_actions {i : Nat} : ∀ {cs : List Cmd} {s s' : Simulation},
    runCmds s i cs = .ok s' → ∀ {ag' : Agent}, s'.agents[i]? = some ag' →
    ∃ ag, s.agents[i]? = some ag ∧
      ∀ x ∈ ag'.agentActions, x ∈ schedActionsOfCmds cs ∨ x ∈ ag.agentActions
  | [], s, s', h, ag', hag' => by
    unfold runCmds at h; injection h with h; subst h
    exact ⟨ag', hag', fun x hx => Or.inr hx⟩
  | c :: cs, s, s', h, ag', hag' => by
    unfold runCmds at h
    split at h
    · injection h
    · next s1 heq =>
      obtain ⟨ag1, hag1, hsub1⟩ := runCmds_actions h hag'
      obtain ⟨ag, hag, hsub0⟩ := runCmd_actions heq hag1
      refine ⟨ag, hag, fun x hx => ?_⟩
      rcases hsub1 x hx with hcs | hin
      · exact Or.inl (by rw [schedActionsOfCmds]; exact List.mem_append_right _ hcs)
      · rcases hsub0 x hin with hc | hin0
        · exact Or.inl (by rw [schedActionsOfCmds]; exact List.mem_append_left _ hc)
        · exact Or.inr hin0

theorem playerNext_actions {s s' : Simulation} {i : Nat}
    (h : playerNext s i = .ok s') {ag' : Agent} (hag' : s'.agents[i]? = some ag') :
    ∃ ag, s.agents[i]? = some ag ∧ ∀ x ∈ ag'.agentActions, x ∈ ag.agentActions := by
  unfold playerNext at h
  split at h
  · injection h with h; subst h
    exact ⟨ag', hag', fun x hx => hx⟩
  · next ag hag =>
    split at h
    · injection h with h; subst h
      exact ⟨ag, hag, fun x hx => by
        rw [show (emit s (Event.driveEv ag.name)).agents[i]? = s.agents[i]? from rfl, hag]
          at hag'
        injection hag' with hag'
        exact hag' ▸ hx⟩
    · next str hp =>
      injection h with h; subst h
      rw [modifyAgent_getElem_self _ (show (emit s (Event.driveEv ag.name)).agents[i]?
        = some ag from hag)] at hag'
      injection hag' with hag'; subst hag'
      refine ⟨ag, hag, fun x hx => ?_⟩
      rcases setPlayerBehavior_actions_sub ag (Player.repeatS str) str x hx with hl | hr
      · rcases List.mem_append.mp hl with hs | hp2
        · exact List.mem_append_left _ hs
        · simp [Player.playerActions] at hp2
      · exact hr
    · next cmds str rest hp =>
      split at h
      · injection h
      · next s2 heq =>
        injection h with h; subst h
        have hlen : (s2.agents[i]?).map Agent.name
            = ((emit s (Event.driveEv ag.name)).agents[i]?).map Agent.name :=
          (shape_runCmds heq).name_i
        rw [show (emit s (Event.driveEv ag.name)).agents[i]? = s.agents[i]? from rfl, hag]
          at hlen
        cases hag2 : s2.agents[i]? with
        | none => rw [hag2] at hlen; simp at hlen
        | some ag2 =>
          rw [modifyAgent_getElem_self _ hag2] at hag'
          injection hag' with hag'; subst hag'
          obtain ⟨agE, hagE, hsub⟩ := runCmds_actions heq hag2
          rw [show (emit s (Event.driveEv ag.name)).agents[i]? = s.agents[i]? from rfl, hag]
            at hagE
          injection hagE with hagE; subst hagE
          have hpl : ag.playerActionsOf = schedActionsOfCmds cmds ++ rest.playerActions := by
            unfold Agent.playerActionsOf
            rw [hp]
            rfl
          refine ⟨ag, hag, fun x hx => ?_⟩
          rcases setPlayerBehavior_actions_sub ag2 rest str x hx with hl | hr
          · rcases List.mem_append.mp hl with hs | hrest
            · have : x ∈ ag2.agentActions := List.mem_append_left _ hs
              rcases hsub x this with hcs | hin
              · exact List.mem_append_right _ (by rw [hpl]; exact List.mem_append_left _ hcs)
              · exact hin
            · exact List.mem_append_right _ (by rw [hpl]; exact List.mem_append_right _ hrest)
          · rcases hsub x hr with hcs | hin
            · exact List.mem_append_right _ (by rw [hpl]; exact List.mem_append_left _ hcs)
            · exact hin

theorem agentActions_data_robot (ag : Agent) (r r2 : RobotData) (heq : ag.data = .robot r)
    (hp : r2.player = r.player) :
    ({ ag with data := .robot r2 } : Agent).agentActions = ag.agentActions := by
  simp [Agent.agentActions, Agent.storedActions, Agent.playerActionsOf, Agent.playerOf,
    heq, hp]

theorem agentActions_data_human (ag : Agent) (hm h2 : HumanData) (heq : ag.data = .human hm)
    (hp : h2.player = hm.player) :
    ({ ag with data := .human h2 } : Agent).agentActions = ag.agentActions := by
  simp [Agent.agentActions, Agent.storedActions, Agent.playerActionsOf, Agent.playerOf,
    heq, hp]

theorem agentActions_cleared (ag : Agent) :
    (clearAction ag).agentActions = ag.playerActionsOf := rfl

theorem runAction_actions {s s' : Simulation} {i : Nat} {a : ActionCode}
    (h : runAction s i a = .ok s') {ag' : Agent} (hag' : s'.agents[i]? = some ag') :
    ∃ ag, s.agents[i]? = some ag ∧
      ∀ x ∈ ag'.agentActions, x ∈ a.subActions ∨ x ∈ ag.agentActions := by
  unfold runAction at h
  split at h
  · injection h with h; subst h
    exact ⟨ag', hag', fun x hx => Or.inr hx⟩
  · next ag hag =>
    cases a <;> simp only [] at h
    case wait_done =>
      injection h with h; subst h
      exact ⟨ag', hag', fun x hx => Or.inr hx⟩
    case noop id =>
      injection h with h; subst h
      exact ⟨ag', hag', fun x hx => Or.inr hx⟩
    case schedule_inside seconds inner d =>
      injection h with h; subst h
      rw [schedule_actionAt_getElem_self hag] at hag'
      injection hag' with hag'; subst hag'
      refine ⟨ag, hag, fun x hx => ?_⟩
      rw [agentActions_schedule] at hx
      rcases List.mem_append.mp hx with hl | hr
      · exact Or.inl (by rw [ActionCode.subActions]; exact List.mem_cons_of_mem _ hl)
      · exact Or.inr (List.mem_append_right _ hr)
    case pickup_finish =>
      split at h
      · next r heq =>
        split at h
        · injection h with h; subst h
          rw [show ∀ (t : Simulation) l n, (setLocCubes t l n).agents[i]? = t.agents[i]?
              from fun _ _ _ => rfl,
            modifyAgent_getElem_self _ hag] at hag'
          injection hag' with hag'; subst hag'
          refine ⟨ag, hag, fun x hx => ?_⟩
          refine Or.inr ?_
          simpa [Agent.agentActions, Agent.storedActions, Agent.playerActionsOf,
            Agent.playerOf, heq] using hx
        · injection h with h; subst h
          exact ⟨ag', hag', fun x hx => Or.inr hx⟩
      · injection h with h; subst h
        exact ⟨ag', hag', fun x hx => Or.inr hx⟩
    case drop_finish =>
      split at h
      · next r heq =>
        split at h
        · injection h with h; subst h
          rw [show ∀ (t : Simulation) l n, (setLocCubes t l n).agents[i]? = t.agents[i]?
              from fun _ _ _ => rfl,
            modifyAgent_getElem_self _ hag] at hag'
          injection hag' with hag'; subst hag'
          refine ⟨ag, hag, fun x hx => ?_⟩
          refine Or.inr ?_
          simpa [Agent.agentActions, Agent.storedActions, Agent.playerActionsOf,
            Agent.playerOf, heq] using hx
        · injection h with h; subst h
          exact ⟨ag', hag', fun x hx => Or.inr hx⟩
      · injection h with h; subst h
        exact ⟨ag', hag', fun x hx => Or.inr hx⟩
    case place_finish =>
      split at h
      · next r heq =>
        split at h
        · split at h
          · injection h with h; subst h
            rw [show ∀ (t : Simulation) p n, (setPlateCubes t p n).agents[i]? = t.agents[i]?
                from fun _ _ _ => rfl,
              modifyAgent_getElem_self _ hag] at hag'
            injection hag' with hag'; subst hag'
            refine ⟨ag, hag, fun x hx => ?_⟩
            refine Or.inr ?_
            simpa [Agent.agentActions, Agent.storedActions, Agent.playerActionsOf,
              Agent.playerOf, heq] using hx
          · injection h with h; subst h
            exact ⟨ag', hag', fun x hx => Or.inr hx⟩
        · injection h with h; subst h
          exact ⟨ag', hag', fun x hx => Or.inr hx⟩
      · injection h with h; subst h
        exact ⟨ag', hag', fun x hx => Or.inr hx⟩
    case climb_finish =>
      split at h
      · next r heq =>
        split at h
        · injection h with h; subst h
          rw [modifyAgent_getElem_self _ hag] at hag'
          injection hag' with hag'; subst hag'
          refine ⟨ag, hag, fun x hx => ?_⟩
          refine Or.inr ?_
          simpa [Agent.agentActions, Agent.storedActions, Agent.playerActionsOf,
            Agent.playerOf, heq] using hx
        · injection h with h; subst h
          exact ⟨ag', hag', fun x hx => Or.inr hx⟩
      · injection h with h; subst h
        exact ⟨ag', hag', fun x hx => Or.inr hx⟩
    case drive_arrive dest =>
      split at h
      · next r heq =>
        injection h with h; subst h
        rw [modifyAgent_getElem_self _ hag] at hag'
        injection hag' with hag'; subst hag'
        refine ⟨ag, hag, fun x hx => ?_⟩
        refine Or.inr ?_
        split at hx <;>
          simpa [Agent.agentActions, Agent.storedActions, Agent.playerActionsOf,
            Agent.playerOf, heq] using hx
      · injection h with h; subst h
        exact ⟨ag', hag', fun x hx => Or.inr hx⟩
    case get_from_exchange_finish =>
      split at h
      · next hm heq =>
        split at h
        · injection h
        · split at h
          · injection h with h; subst h
            rw [show ∀ (t : Simulation) p n, (setPlateCubes t p n).agents[i]? = t.agents[i]?
                from fun _ _ _ => rfl,
              modifyAgent_getElem_self _ hag] at hag'
            injection hag' with hag'; subst hag'
            refine ⟨ag, hag, fun x hx => ?_⟩
            refine Or.inr ?_
            simpa [Agent.agentActions, Agent.storedActions, Agent.playerActionsOf,
              Agent.playerOf, heq] using hx
          · injection h with h; subst h
            exact ⟨ag', hag', fun x hx => Or.inr hx⟩
      · injection h with h; subst h
        exact ⟨ag', hag', fun x hx => Or.inr hx⟩
    case put_to_exchange_finish =>
      split at h
      · next hm heq =>
        split at h
        · split at h
          · injection h
          · injection h with h; subst h
            rw [show ∀ (t : Simulation) l n, (setLocCubes t l n).agents[i]? = t.agents[i]?
                from fun _ _ _ => rfl,
              modifyAgent_getElem_self _ hag] at hag'
            injection hag' with hag'; subst hag'
            refine ⟨ag, hag, fun x hx => ?_⟩
            refine Or.inr ?_
            simpa [Agent.agentActions, Agent.storedActions, Agent.playerActionsOf,
              Agent.playerOf, heq] using hx
        · injection h with h; subst h
          exact ⟨ag', hag', fun x hx => Or.inr hx⟩
      · injection h with h; subst h
        exact ⟨ag', hag', fun x hx => Or.inr hx⟩
    case put_through_portal_finish =>
      split at h
      · next hm heq =>
        split at h
        · split at h
          · injection h
          · injection h with h; subst h
            rw [show ∀ (t : Simulation) l n, (setLocCubes t l n).agents[i]? = t.agents[i]?
                from fun _ _ _ => rfl,
              modifyAgent_getElem_self _ hag] at hag'
            injection hag' with hag'; subst hag'
            refine ⟨ag, hag, fun x hx => ?_⟩
            refine Or.inr ?_
            simpa [Agent.agentActions, Agent.storedActions, Agent.playerActionsOf,
              Agent.playerOf, heq] using hx
        · injection h with h; subst h
          exact ⟨ag', hag', fun x hx => Or.inr hx⟩
      · injection h with h; subst h
        exact ⟨ag', hag', fun x hx => Or.inr hx⟩

theorem doneAt_actions {s s' : Simulation} {i : Nat}
    (h : scheduled_action_doneAt s i = .ok s') {ag' : Agent}
    (hag' : s'.agents[i]? = some ag') :
    ∃ ag, s.agents[i]? = some ag ∧ ∀ x ∈ ag'.agentActions, x ∈ ag.agentActions := by
  unfold scheduled_action_doneAt at h
  split at h
  · injection h with h; subst h
    exact ⟨ag', hag', fun x hx => hx⟩
  · split at h
    · exact playerNext_actions h hag'
    · exact playerNext_actions h hag'
    · injection h with h; subst h
      exact ⟨ag', hag', fun x hx => hx⟩

/-! ### Trace-precision lemmas -/

theorem runCmd_trace {s s' : Simulation} {i : Nat} {c : Cmd}
    (h : runCmd s i c = .ok s') : s'.trace = s.trace := by
  unfold runCmd at h
  split at h
  · injection h with h; subst h; rfl
  · cases c <;> simp only [] at h
    all_goals repeat' split at h
    all_goals
      first
      | (injection h with h; subst h;
         first
         | rfl
         | ((try simp only [waitAt, wait_for_teleopAt, schedule_actionAt]) <;>
            (try split) <;> simp [modifyAgent_trace]))
      | injection h

theorem runCmds_trace {i : Nat} : ∀ {cs : List Cmd} {s s' : Simulation},
    runCmds s i cs = .ok s' → s'.trace = s.trace
  | [], s, s', h => by
    unfold runCmds at h; injection h with h; subst h; rfl
  | c :: cs, s, s', h => by
    unfold runCmds at h
    split at h
    · injection h
    · next s1 heq => exact (runCmds_trace h).trans (runCmd_trace heq)

theorem runAction_trace {s s' : Simulation} {i : Nat} {a : ActionCode}
    (h : runAction s i a = .ok s') : s'.trace = s.trace := by
  unfold runAction at h
  split at h
  · injection h with h; subst h; rfl
  · cases a <;> simp only [] at h
    all_goals repeat' split at h
    all_goals
      first
      | (injection h with h; subst h;
         simp [schedule_actionAt, modifyAgent_trace, setLocCubes, setPlateCubes])
      | injection h

theorem playerNext_trace {s s' : Simulation} {i : Nat} {ag : Agent}
    (hag : s.agents[i]? = some ag) (h : playerNext s i = .ok s') :
    s'.trace = s.trace ++ [Event.driveEv ag.name] := by
  unfold playerNext at h
  split at h
  · next heq => rw [heq] at hag; cases hag
  · next ag2 heq =>
    rw [heq] at hag
    injection hag with hag
    subst hag
    split at h
    · injection h with h; subst h; rfl
    · injection h with h; subst h
      simp [modifyAgent_trace, emit_trace]
    · split at h
      · injection h
      · next s2 heq2 =>
        injection h with h; subst h
        rw [modifyAgent_trace, runCmds_trace heq2, emit_trace]

theorem doneAt_trace {s s' : Simulation} {i : Nat}
    (h : scheduled_action_doneAt s i = .ok s') :
    s'.trace = s.trace ∨ ∃ nm, s'.trace = s.trace ++ [Event.driveEv nm] := by
  unfold scheduled_action_doneAt at h
  split at h
  · injection h with h; subst h; exact Or.inl rfl
  · next ag heq =>
    split at h
    · exact Or.inr ⟨ag.name, playerNext_trace heq h⟩
    · exact Or.inr ⟨ag.name, playerNext_trace heq h⟩
    · injection h with h; subst h; exact Or.inl rfl

/-! ### Characterisation of the base-class update -/

theorem baseUpdateAt_nofire {s : Simulation} {i : Nat} {time : Int} {ag : Agent}
    (hag : s.agents[i]? = some ag) (hne : ¬ ag.eta = some time) :
    baseUpdateAt s i time = .ok s := by
  unfold baseUpdateAt
  split
  · rfl
  · next ag2 heq =>
    rw [heq] at hag
    injection hag with hag
    subst hag
    rw [if_neg hne]

theorem baseUpdateAt_noneact {s : Simulation} {i : Nat} {time : Int} {ag : Agent}
    (hag : s.agents[i]? = some ag) (heta : ag.eta = some time)
    (hact : ag.scheduled_action = none) :
    baseUpdateAt s i time =
      .error (.runtimeError ("TypeError: NoneType object is not callable")) := by
  unfold baseUpdateAt
  split
  · next heq => rw [heq] at hag; cases hag
  · next ag2 heq =>
    rw [heq] at hag
    injection hag with hag
    subst hag
    rw [if_pos heta, hact]

theorem baseUpdateAt_fire {s : Simulation} {i : Nat} {time : Int} {ag : Agent}
    {A : ActionCode} (hag : s.agents[i]? = some ag) (heta : ag.eta = some time)
    (hact : ag.scheduled_action = some A) :
    baseUpdateAt s i time =
      match runAction
          (emit (modifyAgent s i clearAction) (Event.fireEv ag.name A)) i A with
      | .error e => .error e
      | .ok s3 => scheduled_action_doneAt s3 i := by
  unfold baseUpdateAt
  split
  · next heq => rw [heq] at hag; cases hag
  · next ag2 heq =>
    rw [heq] at hag
    injection hag with hag
    subst hag
    rw [if_pos heta, hact]

theorem baseUpdateAt_master {s s' : Simulation} {i : Nat} {time : Int} {ag : Agent}
    (hag : s.agents[i]? = some ag) (h : baseUpdateAt s i time = .ok s') :
    (∃ d, s'.trace = s.trace ++ d ∧
       (∀ e ∈ d, e.isUpd = false ∧ e.isScore = false) ∧
       (∀ nm b, Event.fireEv nm b ∈ d → nm = ag.name ∧ b ∈ ag.storedActions)) ∧
    (∀ ag', s'.agents[i]? = some ag' → ∀ x ∈ ag'.agentActions, x ∈ ag.agentActions) := by
  by_cases heta : ag.eta = some time
  · cases hact : ag.scheduled_action with
    | none => rw [baseUpdateAt_noneact hag heta hact] at h; injection h
    | some A =>
      rw [baseUpdateAt_fire hag heta hact] at h
      split at h
      · injection h
      · next s3 heq =>
        have htr3 : s3.trace = s.trace ++ [Event.fireEv ag.name A] := by
          rw [runAction_trace heq, emit_trace, modifyAgent_trace]
        have hAstored : A ∈ ag.storedActions := by
          unfold Agent.storedActions
          rw [hact]
          exact subActions_self A
        constructor
        · rcases doneAt_trace h with htr | ⟨nm, htr⟩
          · refine ⟨[Event.fireEv ag.name A], by rw [htr, htr3], ?_, ?_⟩
            · intro e he
              rcases List.mem_singleton.mp he with rfl
              exact ⟨rfl, rfl⟩
            · intro nm2 b hb
              rcases List.mem_singleton.mp hb with hb2
              injection hb2 with h1 h2
              exact ⟨h1, h2 ▸ hAstored⟩
          · refine ⟨[Event.fireEv ag.name A, Event.driveEv nm],
              by rw [htr, htr3, List.append_assoc]; rfl, ?_, ?_⟩
            · intro e he
              rcases List.mem_cons.mp he with rfl | he2
              · exact ⟨rfl, rfl⟩
              · rcases List.mem_singleton.mp he2 with rfl
                exact ⟨rfl, rfl⟩
            · intro nm2 b hb
              rcases List.mem_cons.mp hb with hb2 | hb2
              · injection hb2 with h1 h2
                exact ⟨h1, h2 ▸ hAstored⟩
              · rcases List.mem_singleton.mp hb2 with hb3
                cases hb3
        · intro ag' hag' x hx
          obtain ⟨ag3, hag3, hsub3⟩ := doneAt_actions h hag'
          obtain ⟨agE, hagE, hsubE⟩ := runAction_actions heq hag3
          rw [show (emit (modifyAgent s i clearAction)
              (Event.fireEv ag.name A)).agents[i]?
            = (modifyAgent s i clearAction).agents[i]? from rfl,
            modifyAgent_getElem_self _ hag] at hagE
          injection hagE with hagE
          subst hagE
          rcases hsubE x (hsub3 x hx) with hsubA | hin
          · have : x ∈ ag.storedActions := by
              unfold Agent.storedActions
              rw [hact]
              exact hsubA
            exact List.mem_append_left _ this
          · rw [agentActions_cleared] at hin
            exact List.mem_append_right _ hin
  · rw [baseUpdateAt_nofire hag heta] at h
    injection h with h
    subst h
    refine ⟨⟨[], by simp, by simp, by simp⟩, fun ag' hag' x hx => ?_⟩
    rw [hag] at hag'
    injection hag' with hag'
    subst hag'
    exact hx

/-! ### Characterisation of the dynamic update call -/

theorem updateAt_none {s : Simulation} {i : Nat} {time : Int}
    (hag : s.agents[i]? = none) : updateAt s i time = .ok s := by
  unfold updateAt
  rw [hag]

theorem updateAt_pending {s : Simulation} {i : Nat} {time : Int} {ag : Agent}
    {A : ActionCode} (hag : s.agents[i]? = some ag) (hact : ag.scheduled_action = some A)
    (hne : ¬ ag.eta = some time) :
    updateAt s i time = .ok (emit s (Event.updateEv ag.name time)) := by
  have hb : baseUpdateAt (emit s (Event.updateEv ag.name time)) i time
      = .ok (emit s (Event.updateEv ag.name time)) :=
    baseUpdateAt_nofire
      (show (emit s (Event.updateEv ag.name time)).agents[i]? = some ag from hag) hne
  unfold updateAt
  split
  · next heq => rw [heq] at hag; cases hag
  · next ag2 heq =>
    rw [heq] at hag
    injection hag with hh
    subst hh
    split
    · rw [if_neg (by simp [hact])]
      exact hb
    · rw [if_neg (by simp [hact])]
      exact hb
    · exact hb

theorem updateAt_master {s s' : Simulation} {i : Nat} {time : Int} {ag : Agent}
    (hag : s.agents[i]? = some ag) (h : updateAt s i time = .ok s') :
    (∃ d, s'.trace = s.trace ++ Event.updateEv ag.name time :: d ∧
       (∀ e ∈ d, e.isUpd = false ∧ e.isScore = false) ∧
       (∀ nm b, Event.fireEv nm b ∈ d → b ∈ ag.agentActions)) ∧
    (∀ ag', s'.agents[i]? = some ag' → ∀ x ∈ ag'.agentActions, x ∈ ag.agentActions) := by
  have hagE : (emit s (Event.updateEv ag.name time)).agents[i]? = some ag := hag
  unfold updateAt at h
  split at h
  · next heq => rw [heq] at hag; cases hag
  · next ag2 heq =>
    rw [heq] at hag
    injection hag with hh
    subst hh
    have base_case : baseUpdateAt (emit s (Event.updateEv ag2.name time)) i time = .ok s' →
        (∃ d, s'.trace = s.trace ++ Event.updateEv ag2.name time :: d ∧
           (∀ e ∈ d, e.isUpd = false ∧ e.isScore = false) ∧
           (∀ nm b, Event.fireEv nm b ∈ d → b ∈ ag2.agentActions)) ∧
        (∀ ag', s'.agents[i]? = some ag' →
           ∀ x ∈ ag'.agentActions, x ∈ ag2.agentActions) := by
      intro hb
      obtain ⟨⟨d, hd, hcls, hfir⟩, hmono⟩ := baseUpdateAt_master hagE hb
      refine ⟨⟨d, by rw [hd, emit_trace, List.append_assoc]; rfl, hcls, ?_⟩, hmono⟩
      intro nm b hb2
      exact List.mem_append_left _ ((hfir nm b hb2).2)
    split at h
    · split at h
      · split at h
        · injection h
        · next s2 heq2 =>
          have hag2o : (s2.agents[i]?).map Agent.name = some ag2.name := by
            rw [(shape_playerNext heq2).name_i, hagE]
            rfl
          cases hag2 : s2.agents[i]? with
          | none => rw [hag2] at hag2o; cases hag2o
          | some ag2' =>
            obtain ⟨⟨d, hd, hcls, hfir⟩, hmono2⟩ := baseUpdateAt_master hag2 h
            obtain ⟨agE, hagE2, hsubp⟩ := playerNext_actions heq2 hag2
            rw [hagE] at hagE2
            injection hagE2 with hagE2
            subst hagE2
            have htr2 : s2.trace = s.trace ++ [Event.updateEv ag2.name time,
                Event.driveEv ag2.name] := by
              rw [playerNext_trace hagE heq2, emit_trace, List.append_assoc]
              rfl
            refine ⟨⟨Event.driveEv ag2.name :: d, ?_, ?_, ?_⟩, ?_⟩
            · rw [hd, htr2, List.append_assoc]
              rfl
            · intro e he
              rcases List.mem_cons.mp he with rfl | he2
              · exact ⟨rfl, rfl⟩
              · exact hcls e he2
            · intro nm b hb2
              rcases List.mem_cons.mp hb2 with hb3 | hb3
              · cases hb3
              · have hst : b ∈ ag2'.storedActions := (hfir nm b hb3).2
                exact hsubp b (List.mem_append_left _ hst)
            · intro ag' hag' x hx
              exact hsubp x (hmono2 ag' hag' x hx)
      · exact base_case h
    · split at h
      · split at h
        · injection h
        · next s2 heq2 =>
          have hag2o : (s2.agents[i]?).map Agent.name = some ag2.name := by
            rw [(shape_playerNext heq2).name_i, hagE]
            rfl
          cases hag2 : s2.agents[i]? with
          | none => rw [hag2] at hag2o; cases hag2o
          | some ag2' =>
            obtain ⟨⟨d, hd, hcls, hfir⟩, hmono2⟩ := baseUpdateAt_master hag2 h
            obtain ⟨agE, hagE2, hsubp⟩ := playerNext_actions heq2 hag2
            rw [hagE] at hagE2
            injection hagE2 with hagE2
            subst hagE2
            have htr2 : s2.trace = s.trace ++ [Event.updateEv ag2.name time,
                Event.driveEv ag2.name] := by
              rw [playerNext_trace hagE heq2, emit_trace, List.append_assoc]
              rfl
            refine ⟨⟨Event.driveEv ag2.name :: d, ?_, ?_, ?_⟩, ?_⟩
            · rw [hd, htr2, List.append_assoc]
              rfl
            · intro e he
              rcases List.mem_cons.mp he with rfl | he2
              · exact ⟨rfl, rfl⟩
              · exact hcls e he2
            · intro nm b hb2
              rcases List.mem_cons.mp hb2 with hb3 | hb3
              · cases hb3
              · have hst : b ∈ ag2'.storedActions := (hfir nm b hb3).2
                exact hsubp b (List.mem_append_left _ hst)
            · intro ag' hag' x hx
              exact hsubp x (hmono2 ag' hag' x hx)
      · exact base_case h
    · exact base_case h

theorem updateAt_AFree {A : ActionCode} {s s' : Simulation} {i : Nat} {time : Int}
    (h : updateAt s i time = .ok s') (hA : AFree A s) :
    (∃ d, s'.trace = s.trace ++ d ∧ ∀ nm, Event.fireEv nm A ∉ d) ∧ AFree A s' := by
  cases hag : s.agents[i]? with
  | none =>
    rw [updateAt_none hag] at h
    injection h with h
    subst h
    exact ⟨⟨[], by simp, by simp⟩, hA⟩
  | some ag =>
    obtain ⟨⟨d, hd, _, hfir⟩, hmono⟩ := updateAt_master hag h
    have hagmem : ag ∈ s.agents := List.getElem?_mem hag
    constructor
    · refine ⟨Event.updateEv ag.name time :: d, hd, ?_⟩
      intro nm hmem
      rcases List.mem_cons.mp hmem with hx | hx
      · cases hx
      · exact hA ag hagmem (hfir nm A hx)
    · intro ag' hmem'
      obtain ⟨j, hj⟩ := List.mem_iff_getElem?.mp hmem'
      by_cases hji : j = i
      · subst hji
        intro hx
        exact hA ag hagmem (hmono ag' hj A hx)
      · rw [(shape_updateAt h).others j hji] at hj
        exact hA ag' (List.getElem?_mem hj)

/-! ### The update pass of one tick -/

theorem updateLoop_events {time : Int} : ∀ {n i : Nat} {s s' : Simulation},
    updateLoop time n i s = .ok s' →
    ∃ d, s'.trace = s.trace ++ d ∧
      (∀ e ∈ d, e.isScore = false) ∧
      d.filter Event.isUpd
        = ((s.agents.drop i).take n).map (fun ag => Event.updateEv ag.name time)
  | 0, i, s, s', h => by
    unfold updateLoop at h
    injection h with h
    subst h
    exact ⟨[], by simp, by simp, by simp⟩
  | n + 1, i, s, s', h => by
    unfold updateLoop at h
    split at h
    · injection h
    · next s1 heq =>
      obtain ⟨d1, hd1, hsc1, hfl1⟩ := updateLoop_events h
      cases hag : s.agents[i]? with
      | none =>
        rw [updateAt_none hag] at heq
        injection heq with heq
        subst heq
        have hnil : s.agents.drop i = [] :=
          List.drop_eq_nil_of_le (List.getElem?_eq_none_iff.mp hag)
        have hnil1 : s.agents.drop (i + 1) = [] :=
          List.drop_eq_nil_of_le (Nat.le_succ_of_le (List.getElem?_eq_none_iff.mp hag))
        refine ⟨d1, hd1, hsc1, ?_⟩
        rw [hfl1, hnil, hnil1]
        simp
      | some ag =>
        obtain ⟨⟨d0, hd0, hcls0, _⟩, _⟩ := updateAt_master hag heq
        have hnames : s1.agents.map Agent.name = s.agents.map Agent.name :=
          (shape_updateAt heq).toLShape.names_list
        have hlt : i < s.agents.length := (List.getElem?_eq_some.mp hag).1
        have hgetl : s.agents[i] = ag := (List.getElem?_eq_some.mp hag).2
        refine ⟨(Event.updateEv ag.name time :: d0) ++ d1, ?_, ?_, ?_⟩
        · rw [hd1, hd0]
          simp
        · intro e he
          rcases List.mem_append.mp he with he2 | he2
          · rcases List.mem_cons.mp he2 with rfl | he3
            · rfl
            · exact (hcls0 e he3).2
          · exact hsc1 e he2
        · have h1 : ∀ l : List Agent,
              (((l.map Agent.name).drop (i + 1)).take n).map
                (fun nm => Event.updateEv nm time)
              = ((l.drop (i + 1)).take n).map (fun b => Event.updateEv b.name time) := by
            intro l
            rw [← List.map_drop, ← List.map_take, List.map_map]
            rfl
          have hmapeq : ((s1.agents.drop (i + 1)).take n).map
              (fun b => Event.updateEv b.name time)
            = ((s.agents.drop (i + 1)).take n).map
              (fun b => Event.updateEv b.name time) := by
            rw [← h1, ← h1, hnames]
          have hd0nil : d0.filter Event.isUpd = [] :=
            List.filter_eq_nil_iff.mpr (fun e he => by simp [(hcls0 e he).1])
          have hcons : s.agents.drop i = ag :: s.agents.drop (i + 1) := by
            rw [List.drop_eq_getElem_cons hlt, hgetl]
          rw [List.filter_append, hfl1, hmapeq, hcons, List.take_succ_cons, List.map_cons]
          rw [List.filter_cons_of_pos (by rfl), hd0nil]
          simp

theorem updateLoop_AFree {A : ActionCode} {time : Int} : ∀ {n i : Nat} {s s' : Simulation},
    updateLoop time n i s = .ok s' → AFree A s →
    (∃ d, s'.trace = s.trace ++ d ∧ ∀ nm, Event.fireEv nm A ∉ d) ∧ AFree A s'
  | 0, i, s, s', h, hA => by
    unfold updateLoop at h
    injection h with h
    subst h
    exact ⟨⟨[], by simp, by simp⟩, hA⟩
  | n + 1, i, s, s', h, hA => by
    unfold updateLoop at h
    split at h
    · injection h
    · next s1 heq =>
      obtain ⟨⟨d0, hd0, hnf0⟩, hA1⟩ := updateAt_AFree heq hA
      obtain ⟨⟨d1, hd1, hnf1⟩, hA2⟩ := updateLoop_AFree h hA1
      refine ⟨⟨d0 ++ d1, by rw [hd1, hd0, List.append_assoc], ?_⟩, hA2⟩
      intro nm hmem
      rcases List.mem_append.mp hmem with hx | hx
      · exact hnf0 nm hx
      · exact hnf1 nm hx

/-! ### Ticks -/

theorem tick_gameover {s : Simulation} (h : GAME_SECS < s.time + 1) :
    s.tick = .error .gameOver := by
  unfold Simulation.tick
  rw [if_pos h]

theorem tick_ok_parts {s s' : Simulation} (h : s.tick = .ok s') :
    ¬ GAME_SECS < s.time + 1 ∧
    updateLoop (s.time + 1) s.agents.length 0 { s with time := s.time + 1 } = .ok s' := by
  unfold Simulation.tick at h
  split at h
  · injection h
  · next hle => exact ⟨hle, h⟩

theorem tick_lshape {s s' : Simulation} (h : s.tick = .ok s') :
    LShape { s with time := s.time + 1 } s' :=
  lshape_updateLoop (tick_ok_parts h).2

theorem tick_time {s s' : Simulation} (h : s.tick = .ok s') : s'.time = s.time + 1 :=
  (tick_lshape h).time_eq

theorem tick_AFree {A : ActionCode} {s s' : Simulation} (h : s.tick = .ok s')
    (hA : AFree A s) :
    (∃ d, s'.trace = s.trace ++ d ∧ ∀ nm, Event.fireEv nm A ∉ d) ∧ AFree A s' := by
  have hA2 : AFree A { s with time := s.time + 1 } := hA
  obtain ⟨⟨d, hd, hnf⟩, hA3⟩ := updateLoop_AFree (tick_ok_parts h).2 hA2
  exact ⟨⟨d, hd, hnf⟩, hA3⟩

theorem ticksN_time : ∀ {k : Nat} {s s' : Simulation},
    Simulation.ticksN k s = .ok s' → s'.time = s.time + k
  | 0, s, s', h => by
    unfold Simulation.ticksN at h
    injection h with h
    subst h
    simp
  | k + 1, s, s', h => by
    unfold Simulation.ticksN at h
    split at h
    · injection h
    · next s1 heq =>
      have h1 := tick_time heq
      have h2 := ticksN_time h
      rw [h2, h1]
      push_cast
      ring

theorem ticksN_AFree {A : ActionCode} : ∀ {k : Nat} {s s' : Simulation},
    Simulation.ticksN k s = .ok s' → AFree A s →
    (∃ d, s'.trace = s.trace ++ d ∧ ∀ nm, Event.fireEv nm A ∉ d) ∧ AFree A s'
  | 0, s, s', h, hA => by
    unfold Simulation.ticksN at h
    injection h with h
    subst h
    exact ⟨⟨[], by simp, by simp⟩, hA⟩
  | k + 1, s, s', h, hA => by
    unfold Simulation.ticksN at h
    split at h
    · injection h
    · next s1 heq =>
      obtain ⟨⟨d0, hd0, hnf0⟩, hA1⟩ := tick_AFree heq hA
      obtain ⟨⟨d1, hd1, hnf1⟩, hA2⟩ := ticksN_AFree h hA1
      refine ⟨⟨d0 ++ d1, by rw [hd1, hd0, List.append_assoc], ?_⟩, hA2⟩
      intro nm hmem
      rcases List.mem_append.mp hmem with hx | hx
      · exact hnf0 nm hx
      · exact hnf1 nm hx

theorem ticksN_trace : ∀ {k : Nat} {s s' : Simulation},
    Simulation.ticksN k s = .ok s' → ∃ d, s'.trace = s.trace ++ d
  | 0, s, s', h => by
    unfold Simulation.ticksN at h
    injection h with h
    subst h
    exact ⟨[], by simp⟩
  | k + 1, s, s', h => by
    unfold Simulation.ticksN at h
    split at h
    · injection h
    · next s1 heq =>
      obtain ⟨d0, hd0⟩ := (tick_lshape heq).tr
      obtain ⟨d1, hd1⟩ := ticksN_trace h
      refine ⟨d0 ++ d1, ?_⟩
      rw [hd1, hd0, List.append_assoc]

theorem traceDelta_decomp {s s1 s' : Simulation} {d0 d1 : List Event}
    (h1 : s1.trace = s.trace ++ d0) (h2 : s'.trace = s1.trace ++ d1) :
    traceDelta s s' = d0 ++ d1 := by
  unfold traceDelta
  rw [h2, h1, List.append_assoc, List.drop_left]

theorem countFireA_append (A : ActionCode) (l1 l2 : List Event) :
    countFireA A (l1 ++ l2) = countFireA A l1 + countFireA A l2 := by
  simp [countFireA, List.countP_append]

theorem countFireA_eq_zero {A : ActionCode} {l : List Event}
    (h : ∀ nm, Event.fireEv nm A ∉ l) : countFireA A l = 0 := by
  unfold countFireA
  rw [List.countP_eq_zero]
  intro e he
  cases e with
  | updateEv nm t => simp [Event.isFireOf]
  | driveEv nm => simp [Event.isFireOf]
  | scoreEv nm sc => simp [Event.isFireOf]
  | fireEv nm b =>
    simp only [Event.isFireOf]
    intro hbeq
    have hb : b = A := by simpa using hbeq
    subst hb
    exact h nm he

theorem schedule_actionAt_getElem_ne {s : Simulation} {i : Nat} (seconds : Int)
    (action : ActionCode) (d : String) {j : Nat} (h : j ≠ i) :
    (schedule_actionAt s i seconds action d).agents[j]? = s.agents[j]? :=
  modifyAgent_getElem_ne s i _ h

theorem modify_keep_sched {s : Simulation} {i : Nat} {ag : Agent} {s2 : Simulation}
    (hag : s.agents[i]? = some ag) (f : Agent → Agent)
    (hagree : s2.agents = (modifyAgent s i f).agents)
    (hs : (f ag).scheduled_action = ag.scheduled_action)
    (hp : (f ag).playerActionsOf = ag.playerActionsOf) :
    ∃ ag1, s2.agents[i]? = some ag1 ∧
      ag1.scheduled_action = ag.scheduled_action ∧
      ag1.playerActionsOf = ag.playerActionsOf := by
  refine ⟨f ag, ?_, hs, hp⟩
  rw [hagree]
  exact modifyAgent_getElem_self f hag

/-- A primitive (non-reentrant) fired effect never touches the stored
action slot of its agent and never swaps its decider: every `runAction`
branch except `schedule_inside` only moves cubes, position, or climb
state. -/
theorem runAction_primitive_agent {s s' : Simulation} {i : Nat} {a : ActionCode}
    {ag : Agent} (hag : s.agents[i]? = some ag) (hprim : a.subActions = [a])
    (h : runAction s i a = .ok s') :
    ∃ ag1, s'.agents[i]? = some ag1 ∧
      ag1.scheduled_action = ag.scheduled_action ∧
      ag1.playerActionsOf = ag.playerActionsOf := by
  unfold runAction at h
  split at h
  · next heq => rw [heq] at hag; cases hag
  · next ag2 heq =>
    have hh : ag = ag2 := Option.some.inj (hag.symm.trans heq)
    subst hh
    cases a with
    | wait_done =>
      injection h with h
      subst h
      exact ⟨ag, hag, rfl, rfl⟩
    | noop n =>
      injection h with h
      subst h
      exact ⟨ag, hag, rfl, rfl⟩
    | schedule_inside sec inner d =>
      exfalso
      have h2 : inner.subActions = [] := by
        have h3 := congrArg List.tail hprim
        simpa [ActionCode.subActions] using h3
      have h4 := subActions_self inner
      rw [h2] at h4
      simp at h4
    | pickup_finish =>
      simp only [] at h
      split at h
      · next r heqd =>
        split at h
        · injection h with h
          subst h
          refine modify_keep_sched hag _ rfl rfl ?_
          simp [Agent.playerActionsOf, Agent.playerOf, heqd]
        · injection h with h
          subst h
          exact ⟨ag, hag, rfl, rfl⟩
      · injection h with h
        subst h
        exact ⟨ag, hag, rfl, rfl⟩
    | drop_finish =>
      simp only [] at h
      split at h
      · next r heqd =>
        split at h
        · injection h with h
          subst h
          refine modify_keep_sched hag _ rfl rfl ?_
          simp [Agent.playerActionsOf, Agent.playerOf, heqd]
        · injection h with h
          subst h
          exact ⟨ag, hag, rfl, rfl⟩
      · injection h with h
        subst h
        exact ⟨ag, hag, rfl, rfl⟩
    | place_finish =>
      simp only [] at h
      split at h
      · next r heqd =>
        split at h
        · next p heqp =>
          split at h
          · injection h with h
            subst h
            refine modify_keep_sched hag _ rfl rfl ?_
            simp [Agent.playerActionsOf, Agent.playerOf, heqd]
          · injection h with h
            subst h
            exact ⟨ag, hag, rfl, rfl⟩
        · injection h with h
          subst h
          exact ⟨ag, hag, rfl, rfl⟩
      · injection h with h
        subst h
        exact ⟨ag, hag, rfl, rfl⟩
    | climb_finish =>
      simp only [] at h
      split at h
      · next r heqd =>
        split at h
        · injection h with h
          subst h
          refine modify_keep_sched hag _ rfl rfl ?_
          simp [Agent.playerActionsOf, Agent.playerOf, heqd]
        · injection h with h
          subst h
          exact ⟨ag, hag, rfl, rfl⟩
      · injection h with h
        subst h
        exact ⟨ag, hag, rfl, rfl⟩
    | drive_arrive dest =>
      simp only [] at h
      split at h
      · next r heqd =>
        injection h with h
        subst h
        refine modify_keep_sched hag _ rfl rfl ?_
        simp only [Agent.playerActionsOf, Agent.playerOf, heqd]
        split <;> rfl
      · injection h with h
        subst h
        exact ⟨ag, hag, rfl, rfl⟩
    | get_from_exchange_finish =>
      simp only [] at h
      split at h
      · next hm heqd =>
        split at h
        · injection h
        · next p heqp =>
          split at h
          · injection h with h
            subst h
            refine modify_keep_sched hag _ rfl rfl ?_
            simp [Agent.playerActionsOf, Agent.playerOf, heqd]
          · injection h with h
            subst h
            exact ⟨ag, hag, rfl, rfl⟩
      · injection h with h
        subst h
        exact ⟨ag, hag, rfl, rfl⟩
    | put_to_exchange_finish =>
      simp only [] at h
      split at h
      · next hm heqd =>
        split at h
        · split at h
          · injection h
          · next z heqz =>
            injection h with h
            subst h
            refine modify_keep_sched hag _ rfl rfl ?_
            simp [Agent.playerActionsOf, Agent.playerOf, heqd]
        · injection h with h
          subst h
          exact ⟨ag, hag, rfl, rfl⟩
      · injection h with h
        subst h
        exact ⟨ag, hag, rfl, rfl⟩
    | put_through_portal_finish =>
      simp only [] at h
      split at h
      · next hm heqd =>
        split at h
        · split at h
          · injection h
          · next z heqz =>
            injection h with h
            subst h
            refine modify_keep_sched hag _ rfl rfl ?_
            simp [Agent.playerActionsOf, Agent.playerOf, heqd]
        · injection h with h
          subst h
          exact ⟨ag, hag, rfl, rfl⟩
      · injection h with h
        subst h
        exact ⟨ag, hag, rfl, rfl⟩

/-- An `update` call on an agent whose primitive action is due: the agent
comes out without the action anywhere in reach, every other agent is
untouched, and the trace grows by a delta containing exactly one firing
of the action. -/
theorem updateAt_fireA {s s' : Simulation} {i : Nat} {time : Int} {ag : Agent}
    {A : ActionCode} (hag : s.agents[i]? = some ag)
    (hact : ag.scheduled_action = some A) (heta : ag.eta = some time)
    (hprim : A.subActions = [A]) (hpl : A ∉ ag.playerActionsOf)
    (h : updateAt s i time = .ok s') :
    (∀ ag', s'.agents[i]? = some ag' → A ∉ ag'.agentActions) ∧
    (∀ j, j ≠ i → s'.agents[j]? = s.agents[j]?) ∧
    (∃ d, s'.trace = s.trace ++ d ∧ countFireA A d = 1) := by
  have hothers := (shape_updateAt h).others
  have hmain : updateAt s i time
      = baseUpdateAt (emit s (Event.updateEv ag.name time)) i time := by
    unfold updateAt
    split
    · next heq => rw [heq] at hag; cases hag
    · next ag2 heq =>
      have hh : ag2 = ag := Option.some.inj (heq.symm.trans hag)
      subst hh
      split
      · rw [if_neg (by simp [hact])]
      · rw [if_neg (by simp [hact])]
      · rfl
  rw [hmain] at h
  have hagE : (emit s (Event.updateEv ag.name time)).agents[i]? = some ag := hag
  rw [baseUpdateAt_fire hagE heta hact] at h
  split at h
  · injection h
  · next s3 heq3 =>
    have hagC : (emit (modifyAgent (emit s (Event.updateEv ag.name time)) i clearAction)
        (Event.fireEv ag.name A)).agents[i]? = some (clearAction ag) :=
      modifyAgent_getElem_self clearAction hagE
    obtain ⟨ag1, hag1, hsch1, hpl1⟩ := runAction_primitive_agent hagC hprim heq3
    have hsch1n : ag1.scheduled_action = none := hsch1.trans rfl
    have hpl1e : ag1.playerActionsOf = ag.playerActionsOf := hpl1.trans rfl
    refine ⟨?_, fun j hj => hothers j hj, ?_⟩
    · intro ag' hag'
      obtain ⟨ag1b, hag1b, hsub⟩ := doneAt_actions h hag'
      rw [hag1] at hag1b
      have hbb : ag1 = ag1b := Option.some.inj hag1b
      subst hbb
      intro hxA
      have hx2 := hsub A hxA
      simp only [Agent.agentActions] at hx2
      rcases List.mem_append.mp hx2 with hst | hplx
      · have hnil : ag1.storedActions = [] := by
          unfold Agent.storedActions
          rw [hsch1n]
        rw [hnil] at hst
        simp at hst
      · rw [hpl1e] at hplx
        exact hpl hplx
    · have htr3 : s3.trace
          = s.trace ++ [Event.updateEv ag.name time, Event.fireEv ag.name A] := by
        rw [runAction_trace heq3, emit_trace, modifyAgent_trace, emit_trace,
          List.append_assoc]
        rfl
      rcases doneAt_trace h with htr | ⟨nm, htr⟩
      · refine ⟨[Event.updateEv ag.name time, Event.fireEv ag.name A],
          by rw [htr, htr3], ?_⟩
        simp [countFireA, List.countP_cons, Event.isFireOf]
      · refine ⟨[Event.updateEv ag.name time, Event.fireEv ag.name A, Event.driveEv nm],
          by rw [htr, htr3, List.append_assoc]; rfl, ?_⟩
        simp [countFireA, List.countP_cons, Event.isFireOf]

/-- A pass segment over a state whose target agent holds a pending action
whose eta is not the current clock: the target agent is untouched, every
other agent stays free of the action, and no firing of it is emitted. -/
theorem updateLoop_pending {time : Int} {itgt : Nat} {ag : Agent} {A : ActionCode}
    {E : Int} (hact : ag.scheduled_action = some A) (heta : ag.eta = some E)
    (hne : E ≠ time) :
    ∀ {n i : Nat} {s s' : Simulation}, updateLoop time n i s = .ok s' →
    s.agents[itgt]? = some ag →
    (∀ j bg, j ≠ itgt → s.agents[j]? = some bg → A ∉ bg.agentActions) →
    s'.agents[itgt]? = some ag ∧
    (∀ j bg, j ≠ itgt → s'.agents[j]? = some bg → A ∉ bg.agentActions) ∧
    (∃ d, s'.trace = s.trace ++ d ∧ ∀ nm, Event.fireEv nm A ∉ d)
  | 0, i, s, s', h, hag, hoth => by
    unfold updateLoop at h
    injection h with h
    subst h
    exact ⟨hag, hoth, ⟨[], by simp, by simp⟩⟩
  | n + 1, i, s, s', h, hag, hoth => by
    unfold updateLoop at h
    split at h
    · injection h
    · next s1 heq =>
      by_cases hii : i = itgt
      · subst hii
        rw [updateAt_pending hag hact (by rw [heta]; simpa using hne)] at heq
        injection heq with heq
        subst heq
        obtain ⟨h1, h2, dd, hdd, hnf⟩ := updateLoop_pending hact heta hne h hag hoth
        refine ⟨h1, h2, ⟨Event.updateEv ag.name time :: dd, ?_, ?_⟩⟩
        · rw [hdd, emit_trace]
          simp
        · intro nm hm
          rcases List.mem_cons.mp hm with hx | hx
          · cases hx
          · exact hnf nm hx
      · cases hagi : s.agents[i]? with
        | none =>
          rw [updateAt_none hagi] at heq
          injection heq with heq
          subst heq
          exact updateLoop_pending hact heta hne h hag hoth
        | some bg =>
          have hbgA : A ∉ bg.agentActions := hoth i bg hii hagi
          obtain ⟨⟨d0, hd0, _, hfir⟩, hmono⟩ := updateAt_master hagi heq
          have hsh := shape_updateAt heq
          have hag1 : s1.agents[itgt]? = some ag := by
            rw [hsh.others itgt (fun hc => hii hc.symm)]
            exact hag
          have hoth1 : ∀ j bg2, j ≠ itgt → s1.agents[j]? = some bg2 →
              A ∉ bg2.agentActions := by
            intro j bg2 hj hbg2
            by_cases hji : j = i
            · subst hji
              intro hxA
              exact hbgA (hmono bg2 hbg2 A hxA)
            · rw [hsh.others j hji] at hbg2
              exact hoth j bg2 hj hbg2
          obtain ⟨h1, h2, dd, hdd, hnf⟩ := updateLoop_pending hact heta hne h hag1 hoth1
          refine ⟨h1, h2, ⟨(Event.updateEv bg.name time :: d0) ++ dd, ?_, ?_⟩⟩
          · rw [hdd, hd0]
            simp
          · intro nm hm
            rcases List.mem_append.mp hm with hx | hx
            · rcases List.mem_cons.mp hx with hx2 | hx2
              · cases hx2
              · exact hbgA (hfir nm A hx2)
            · exact hnf nm hx

/-- A pass segment that reaches the target agent exactly when its
primitive action is due: afterwards the action is gone from the whole
simulation and the pass emitted exactly one firing of it. -/
theorem updateLoop_fireA {time : Int} {itgt : Nat} {ag : Agent} {A : ActionCode}
    (hact : ag.scheduled_action = some A) (heta : ag.eta = some time)
    (hprim : A.subActions = [A]) (hpl : A ∉ ag.playerActionsOf) :
    ∀ {n i : Nat} {s s' : Simulation}, updateLoop time n i s = .ok s' →
    s.agents[itgt]? = some ag →
    (∀ j bg, j ≠ itgt → s.agents[j]? = some bg → A ∉ bg.agentActions) →
    i ≤ itgt → itgt < i + n →
    AFree A s' ∧ (∃ d, s'.trace = s.trace ++ d ∧ countFireA A d = 1)
  | 0, i, s, s', h, hag, hoth, hle, hlt => by omega
  | n + 1, i, s, s', h, hag, hoth, hle, hlt => by
    unfold updateLoop at h
    split at h
    · injection h
    · next s1 heq =>
      by_cases hii : i = itgt
      · subst hii
        obtain ⟨hfree_i, hothers_i, d0, hd0, hcnt⟩ :=
          updateAt_fireA hag hact heta hprim hpl heq
        have hA1 : AFree A s1 := by
          intro bg hmem
          obtain ⟨j, hj⟩ := List.mem_iff_getElem?.mp hmem
          by_cases hji : j = i
          · subst hji
            exact hfree_i bg hj
          · rw [hothers_i j hji] at hj
            exact hoth j bg hji hj
        obtain ⟨⟨d1, hd1, hnf1⟩, hA2⟩ := updateLoop_AFree h hA1
        refine ⟨hA2, d0 ++ d1, ?_, ?_⟩
        · rw [hd1, hd0, List.append_assoc]
        · rw [countFireA_append, hcnt, countFireA_eq_zero hnf1]
      · cases hagi : s.agents[i]? with
        | none =>
          rw [updateAt_none hagi] at heq
          injection heq with heq
          subst heq
          exact updateLoop_fireA hact heta hprim hpl h hag hoth (by omega) (by omega)
        | some bg =>
          have hbgA : A ∉ bg.agentActions := hoth i bg hii hagi
          obtain ⟨⟨d0, hd0, _, hfir⟩, hmono⟩ := updateAt_master hagi heq
          have hsh := shape_updateAt heq
          have hag1 : s1.agents[itgt]? = some ag := by
            rw [hsh.others itgt (fun hc => hii hc.symm)]
            exact hag
          have hoth1 : ∀ j bg2, j ≠ itgt → s1.agents[j]? = some bg2 →
              A ∉ bg2.agentActions := by
            intro j bg2 hj hbg2
            by_cases hji : j = i
            · subst hji
              intro hxA
              exact hbgA (hmono bg2 hbg2 A hxA)
            · rw [hsh.others j hji] at hbg2
              exact hoth j bg2 hj hbg2
          obtain ⟨hAf, d1, hd1, hcnt1⟩ :=
            updateLoop_fireA hact heta hprim hpl h hag1 hoth1 (by omega) (by omega)
          refine ⟨hAf, (Event.updateEv bg.name time :: d0) ++ d1, ?_, ?_⟩
          · rw [hd1, hd0]
            simp
          · have h0 : countFireA A (Event.updateEv bg.name time :: d0) = 0 := by
              apply countFireA_eq_zero
              intro nm hm
              rcases List.mem_cons.mp hm with hx | hx
              · cases hx
              · exact hbgA (hfir nm A hx)
            rw [countFireA_append, h0, hcnt1]

/-- One tick over a state whose agent `i` holds a pending action not yet
due: the agent is untouched, everyone else stays free of the action, and
the tick fires it zero times. -/
theorem tick_pending {s s' : Simulation} {i : Nat} {ag : Agent} {A : ActionCode}
    {E : Int} (hag : s.agents[i]? = some ag) (hact : ag.scheduled_action = some A)
    (heta : ag.eta = some E) (hne : E ≠ s.time + 1)
    (hoth : ∀ j bg, j ≠ i → s.agents[j]? = some bg → A ∉ bg.agentActions)
    (h : s.tick = .ok s') :
    s'.agents[i]? = some ag ∧ s'.time = s.time + 1 ∧
    (∀ j bg, j ≠ i → s'.agents[j]? = some bg → A ∉ bg.agentActions) ∧
    (∃ d, s'.trace = s.trace ++ d ∧ ∀ nm, Event.fireEv nm A ∉ d) := by
  have hloop := (tick_ok_parts h).2
  have hres := updateLoop_pending hact heta hne hloop hag hoth
  exact ⟨hres.1, tick_time h, hres.2.1, hres.2.2⟩

/-- One tick over a state whose agent `i` holds a primitive action due at
the incremented clock: the action fires exactly once and disappears from
the whole simulation. -/
theorem tick_fireA {s s' : Simulation} {i : Nat} {ag : Agent} {A : ActionCode}
    (hag : s.agents[i]? = some ag) (hact : ag.scheduled_action = some A)
    (heta : ag.eta = some (s.time + 1))
    (hprim : A.subActions = [A]) (hpl : A ∉ ag.playerActionsOf)
    (hoth : ∀ j bg, j ≠ i → s.agents[j]? = some bg → A ∉ bg.agentActions)
    (h : s.tick = .ok s') :
    AFree A s' ∧ (∃ d, s'.trace = s.trace ++ d ∧ countFireA A d = 1) := by
  have hloop := (tick_ok_parts h).2
  have hlen : i < s.agents.length := (List.getElem?_eq_some.mp hag).1
  have hres := updateLoop_fireA hact heta hprim hpl hloop
    (show ({ s with time := s.time + 1 } : Simulation).agents[i]? = some ag from hag)
    hoth (Nat.zero_le i) (by simpa using hlen)
  exact hres

/-- The delay round-trip: a fresh primitive action stored with
`eta = now + D`, `1 ≤ D`, fires exactly once over `k` ticks when
`D ≤ k` and zero times when `k < D`. -/
theorem fires_at_eta_aux {A : ActionCode} (hprim : A.subActions = [A]) :
    ∀ (k : Nat) (D : Int) {s s' : Simulation} {i : Nat} {ag : Agent},
      s.agents[i]? = some ag →
      ag.scheduled_action = some A →
      ag.eta = some (s.time + D) →
      A ∉ ag.playerActionsOf →
      (∀ j bg, j ≠ i → s.agents[j]? = some bg → A ∉ bg.agentActions) →
      1 ≤ D →
      Simulation.ticksN k s = .ok s' →
      countFireA A (traceDelta s s') = if D ≤ (k : Int) then 1 else 0
  | 0, D, s, s', i, ag, hag, hact, heta, hpl, hoth, hD, h => by
    unfold Simulation.ticksN at h
    injection h with h
    subst h
    have hnil : traceDelta s s = [] := by
      unfold traceDelta
      simp
    rw [hnil, if_neg (by push_cast; omega)]
    rfl
  | k + 1, D, s, s', i, ag, hag, hact, heta, hpl, hoth, hD, h => by
    unfold Simulation.ticksN at h
    split at h
    · injection h
    · next s1 heq =>
      by_cases hD1 : D = 1
      · subst hD1
        obtain ⟨hA1, d0, hd0, hcnt0⟩ := tick_fireA hag hact heta hprim hpl hoth heq
        obtain ⟨⟨d1, hd1, hnf1⟩, hA2⟩ := ticksN_AFree h hA1
        have hdelta : traceDelta s s' = d0 ++ d1 := traceDelta_decomp hd0 hd1
        rw [hdelta, countFireA_append, hcnt0, countFireA_eq_zero hnf1,
          if_pos (by push_cast; omega)]
      · have hne : s.time + D ≠ s.time + 1 := by omega
        obtain ⟨hag1, htime1, hoth1, d0, hd0, hnf0⟩ :=
          tick_pending hag hact heta hne hoth heq
        have heta1 : ag.eta = some (s1.time + (D - 1)) := by
          rw [htime1, heta]
          congr 1
          ring
        have hrec := fires_at_eta_aux hprim k (D - 1) hag1 hact heta1 hpl hoth1
          (by omega) h
        obtain ⟨dR, hdR⟩ := ticksN_trace h
        have hds1 : traceDelta s1 s' = dR := by
          unfold traceDelta
          rw [hdR, List.drop_left]
        have hdelta : traceDelta s s' = d0 ++ dR := traceDelta_decomp hd0 hdR
        rw [hdelta, countFireA_append, countFireA_eq_zero hnf0, ← hds1, hrec]
        have hiff : D - 1 ≤ (k : Int) ↔ D ≤ ((k + 1 : Nat) : Int) := by
          push_cast
          omega
        by_cases hc : D - 1 ≤ (k : Int)
        · rw [if_pos hc, if_pos (hiff.mp hc)]
        · rw [if_neg hc, if_neg (fun hx => hc (hiff.mpr hx))]

/-- The scoring pass calls `score()` once per remaining agent in order:
the trace grows by exactly one `scoreEv` per agent (carrying that agent's
name), and the returned total is the left fold of the per-agent scores by
pairwise addition starting from the accumulator. -/
theorem scoreLoop_names : ∀ (n i : Nat) (s : Simulation) (acc : Score),
    ∃ scs : List Score,
      scs.length = ((s.agents.drop i).take n).length ∧
      (scoreLoop n i s acc).1.trace
        = s.trace ++ List.zipWith (fun nm sc => Event.scoreEv nm sc)
            (((s.agents.drop i).take n).map Agent.name) scs ∧
      (scoreLoop n i s acc).2 = scs.foldl Score.add acc
  | 0, i, s, acc => ⟨[], by simp, by simp [scoreLoop], by simp [scoreLoop]⟩
  | n + 1, i, s, acc => by
    cases hag : s.agents[i]? with
    | none =>
      have hstep : scoreLoop (n + 1) i s acc = (s, acc) := by
        unfold scoreLoop
        rw [hag]
      have hge : s.agents.length ≤ i := List.getElem?_eq_none_iff.mp hag
      have hnil : s.agents.drop i = [] := List.drop_eq_nil_of_le hge
      refine ⟨[], by simp [hnil], ?_, ?_⟩
      · rw [hstep, hnil]
        simp
      · rw [hstep]
        rfl
    | some ag =>
      have hstep : scoreLoop (n + 1) i s acc
          = scoreLoop n (i + 1)
              { s with
                  agents := s.agents.set i (scoreOf s ag).1,
                  trace := s.trace ++ [Event.scoreEv ag.name (scoreOf s ag).2] }
              (Score.add acc (scoreOf s ag).2) := by
        conv_lhs => unfold scoreLoop
        rw [hag]
      obtain ⟨scs1, hlen1, htr1, hsc1⟩ := scoreLoop_names n (i + 1)
        { s with
            agents := s.agents.set i (scoreOf s ag).1,
            trace := s.trace ++ [Event.scoreEv ag.name (scoreOf s ag).2] }
        (Score.add acc (scoreOf s ag).2)
      have hdropset :
          ({ s with
              agents := s.agents.set i (scoreOf s ag).1,
              trace := s.trace ++ [Event.scoreEv ag.name (scoreOf s ag).2] }
            : Simulation).agents.drop (i + 1)
            = s.agents.drop (i + 1) := by
        show (s.agents.set i (scoreOf s ag).1).drop (i + 1) = s.agents.drop (i + 1)
        rw [List.drop_set, if_pos (Nat.lt_succ_self i)]
      have hlt : i < s.agents.length := (List.getElem?_eq_some.mp hag).1
      have hcons : s.agents.drop i = ag :: s.agents.drop (i + 1) := by
        rw [List.drop_eq_getElem_cons hlt, (List.getElem?_eq_some.mp hag).2]
      refine ⟨(scoreOf s ag).2 :: scs1, ?_, ?_, ?_⟩
      · rw [hcons, List.take_succ_cons]
        simp only [List.length_cons]
        rw [hlen1, hdropset]
      · rw [hstep, htr1, hdropset, hcons, List.take_succ_cons]
        simp
      · rw [hstep, hsc1]
        simp [List.foldl_cons]

theorem setLocCubes_cubes (s : Simulation) (loc : Location) (n : Int) (l : Location) :
    (setLocCubes s loc n).cubes l = if l = loc then n else s.cubes l := rfl

theorem setLocCubes_plateCubes (s : Simulation) (loc : Location) (n : Int) :
    (setLocCubes s loc n).plateCubes = s.plateCubes := rfl

theorem setPlateCubes_plateCubes (s : Simulation) (p : PlateId) (n : Int) (q : PlateId) :
    (setPlateCubes s p n).plateCubes q = if q = p then n else s.plateCubes q := rfl

theorem setPlateCubes_cubes (s : Simulation) (p : PlateId) (n : Int) :
    (setPlateCubes s p n).cubes = s.cubes := rfl

theorem modifyAgent_agents_eq {s : Simulation} {i : Nat} {ag : Agent}
    (f : Agent → Agent) (hag : s.agents[i]? = some ag) :
    (modifyAgent s i f).agents = s.agents.set i (f ag) := by
  unfold modifyAgent
  rw [hag]

theorem schedule_actionAt_cubes (s : Simulation) (i : Nat) (sec : Int)
    (a : ActionCode) (d : String) : (schedule_actionAt s i sec a d).cubes = s.cubes :=
  modifyAgent_cubes s i _

theorem schedule_actionAt_plateCubes (s : Simulation) (i : Nat) (sec : Int)
    (a : ActionCode) (d : String) :
    (schedule_actionAt s i sec a d).plateCubes = s.plateCubes :=
  modifyAgent_plateCubes s i _

/-- Every fired effect keeps all cube counters nonnegative: each transfer
is guarded by its precondition, which is exactly what makes the silent
no-op branches sound. -/
theorem runAction_nonneg {s s' : Simulation} {i : Nat} {a : ActionCode}
    (hnn : NonnegCubes s) (h : runAction s i a = .ok s') : NonnegCubes s' := by
  have hnn2 := hnn
  unfold NonnegCubes at hnn2
  obtain ⟨hc, hp, hagc⟩ := hnn2
  unfold runAction at h
  split at h
  · injection h with h
    subst h
    exact hnn
  · next ag heq =>
    have hmem : ag ∈ s.agents := List.getElem?_mem heq
    cases a with
    | wait_done =>
      injection h with h
      subst h
      exact hnn
    | noop n =>
      injection h with h
      subst h
      exact hnn
    | schedule_inside sec inner d =>
      injection h with h
      subst h
      unfold NonnegCubes
      refine ⟨?_, ?_, ?_⟩
      · intro l
        rw [schedule_actionAt_cubes]
        exact hc l
      · intro p
        rw [schedule_actionAt_plateCubes]
        exact hp p
      · intro x hx
        rw [show (schedule_actionAt s i sec inner d).agents
            = (modifyAgent s i fun b =>
                { b with eta := some (s.time + sec), scheduled_action := some inner,
                         scheduled_action_description := d }).agents from rfl,
          modifyAgent_agents_eq _ heq] at hx
        rcases List.mem_or_eq_of_mem_set hx with hold | hnew
        · exact hagc x hold
        · subst hnew
          exact hagc ag hmem
    | pickup_finish =>
      simp only [] at h
      split at h
      · next r heqd =>
        have hr0 : (0 : Int) ≤ r.cubes := by
          have hx := hagc ag hmem
          unfold carriedCubes at hx
          rw [heqd] at hx
          exact hx
        split at h
        · next hguard =>
          obtain ⟨hg1, hg2⟩ := hguard
          injection h with h
          subst h
          unfold NonnegCubes
          refine ⟨?_, ?_, ?_⟩
          · intro l
            rw [setLocCubes_cubes, modifyAgent_cubes]
            split
            · omega
            · exact hc l
          · intro p
            rw [setLocCubes_plateCubes, modifyAgent_plateCubes]
            exact hp p
          · intro x hx
            rw [setLocCubes_agents, modifyAgent_agents_eq _ heq] at hx
            rcases List.mem_or_eq_of_mem_set hx with hold | hnew
            · exact hagc x hold
            · subst hnew
              show (0 : Int) ≤ r.cubes + 1
              omega
        · injection h with h
          subst h
          exact hnn
      · injection h with h
        subst h
        exact hnn
    | drop_finish =>
      simp only [] at h
      split at h
      · next r heqd =>
        split at h
        · next hguard =>
          injection h with h
          subst h
          unfold NonnegCubes
          refine ⟨?_, ?_, ?_⟩
          · intro l
            rw [setLocCubes_cubes, modifyAgent_cubes]
            have hz := hc r.location
            split
            · omega
            · exact hc l
          · intro p
            rw [setLocCubes_plateCubes, modifyAgent_plateCubes]
            exact hp p
          · intro x hx
            rw [setLocCubes_agents, modifyAgent_agents_eq _ heq] at hx
            rcases List.mem_or_eq_of_mem_set hx with hold | hnew
            · exact hagc x hold
            · subst hnew
              show (0 : Int) ≤ r.cubes - 1
              omega
        · injection h with h
          subst h
          exact hnn
      · injection h with h
        subst h
        exact hnn
    | place_finish =>
      simp only [] at h
      split at h
      · next r heqd =>
        split at h
        · next p heqp =>
          split at h
          · next hguard =>
            injection h with h
            subst h
            unfold NonnegCubes
            refine ⟨?_, ?_, ?_⟩
            · intro l
              rw [setPlateCubes_cubes, modifyAgent_cubes]
              exact hc l
            · intro q
              rw [setPlateCubes_plateCubes, modifyAgent_plateCubes]
              have hq := hp p
              split
              · omega
              · exact hp q
            · intro x hx
              rw [setPlateCubes_agents, modifyAgent_agents_eq _ heq] at hx
              rcases List.mem_or_eq_of_mem_set hx with hold | hnew
              · exact hagc x hold
              · subst hnew
                show (0 : Int) ≤ r.cubes - 1
                omega
          · injection h with h
            subst h
            exact hnn
        · injection h with h
          subst h
          exact hnn
      · injection h with h
        subst h
        exact hnn
    | climb_finish =>
      simp only [] at h
      split at h
      · next r heqd =>
        have hr0 : (0 : Int) ≤ r.cubes := by
          have hx := hagc ag hmem
          unfold carriedCubes at hx
          rw [heqd] at hx
          exact hx
        split at h
        · injection h with h
          subst h
          unfold NonnegCubes
          refine ⟨?_, ?_, ?_⟩
          · intro l
            rw [modifyAgent_cubes]
            exact hc l
          · intro p
            rw [modifyAgent_plateCubes]
            exact hp p
          · intro x hx
            rw [modifyAgent_agents_eq _ heq] at hx
            rcases List.mem_or_eq_of_mem_set hx with hold | hnew
            · exact hagc x hold
            · subst hnew
              exact hr0
        · injection h with h
          subst h
          exact hnn
      · injection h with h
        subst h
        exact hnn
    | drive_arrive dest =>
      simp only [] at h
      split at h
      · next r heqd =>
        have hr0 : (0 : Int) ≤ r.cubes := by
          have hx := hagc ag hmem
          unfold carriedCubes at hx
          rw [heqd] at hx
          exact hx
        injection h with h
        subst h
        unfold NonnegCubes
        refine ⟨?_, ?_, ?_⟩
        · intro l
          rw [modifyAgent_cubes]
          exact hc l
        · intro p
          rw [modifyAgent_plateCubes]
          exact hp p
        · intro x hx
          rw [modifyAgent_agents_eq _ heq] at hx
          rcases List.mem_or_eq_of_mem_set hx with hold | hnew
          · exact hagc x hold
          · subst hnew
            simp only [carriedCubes]
            split <;> exact hr0
      · injection h with h
        subst h
        exact hnn
    | get_from_exchange_finish =>
      simp only [] at h
      split at h
      · next hm heqd =>
        have hh0 : (0 : Int) ≤ hm.cubes := by
          have hx := hagc ag hmem
          unfold carriedCubes at hx
          rw [heqd] at hx
          exact hx
        split at h
        · injection h
        · next p heqp =>
          split at h
          · next hguard =>
            injection h with h
            subst h
            unfold NonnegCubes
            refine ⟨?_, ?_, ?_⟩
            · intro l
              rw [setPlateCubes_cubes, modifyAgent_cubes]
              exact hc l
            · intro q
              rw [setPlateCubes_plateCubes, modifyAgent_plateCubes]
              split
              · omega
              · exact hp q
            · intro x hx
              rw [setPlateCubes_agents, modifyAgent_agents_eq _ heq] at hx
              rcases List.mem_or_eq_of_mem_set hx with hold | hnew
              · exact hagc x hold
              · subst hnew
                show (0 : Int) ≤ hm.cubes + 1
                omega
          · injection h with h
            subst h
            exact hnn
      · injection h with h
        subst h
        exact hnn
    | put_to_exchange_finish =>
      simp only [] at h
      split at h
      · next hm heqd =>
        split at h
        · next hguard =>
          split at h
          · injection h
          · next z heqz =>
            injection h with h
            subst h
            unfold NonnegCubes
            refine ⟨?_, ?_, ?_⟩
            · intro l
              rw [setLocCubes_cubes, modifyAgent_cubes]
              have hz := hc z
              split
              · omega
              · exact hc l
            · intro p
              rw [setLocCubes_plateCubes, modifyAgent_plateCubes]
              exact hp p
            · intro x hx
              rw [setLocCubes_agents, modifyAgent_agents_eq _ heq] at hx
              rcases List.mem_or_eq_of_mem_set hx with hold | hnew
              · exact hagc x hold
              · subst hnew
                show (0 : Int) ≤ hm.cubes - 1
                omega
        · injection h with h
          subst h
          exact hnn
      · injection h with h
        subst h
        exact hnn
    | put_through_portal_finish =>
      simp only [] at h
      split at h
      · next hm heqd =>
        split at h
        · next hguard =>
          split at h
          · injection h
          · next z heqz =>
            injection h with h
            subst h
            unfold NonnegCubes
            refine ⟨?_, ?_, ?_⟩
            · intro l
              rw [setLocCubes_cubes, modifyAgent_cubes]
              have hz := hc z
              split
              · omega
              · exact hc l
            · intro p
              rw [setLocCubes_plateCubes, modifyAgent_plateCubes]
              exact hp p
            · intro x hx
              rw [setLocCubes_agents, modifyAgent_agents_eq _ heq] at hx
              rcases List.mem_or_eq_of_mem_set hx with hold | hnew
              · exact hagc x hold
              · subst hnew
                show (0 : Int) ≤ hm.cubes - 1
                omega
        · injection h with h
          subst h
          exact hnn
      · injection h with h
        subst h
        exact hnn

/-! ### Claim theorems -/

/-- C1: `Simulation.tick` raises `GameOver` exactly when the incremented
time would exceed `GAME_SECS` (before storing the time or updating any
agent, which the error-before-state-construction embedding captures);
otherwise it stores `time + 1` and calls `update` once on every
registered agent, in registration order, with the new time; hence over
any sequence of ticks the time never decreases and grows by exactly 1
per successful tick. -/
theorem tick_gameover_or_unit_advance :
    (∀ s : Simulation, GAME_SECS < s.time + 1 → s.tick = .error Err.gameOver) ∧
    (∀ s s' : Simulation, s.tick = .ok s' →
      s'.time = s.time + 1 ∧
      s'.agents.map Agent.name = s.agents.map Agent.name ∧
      ∃ d, s'.trace = s.trace ++ d ∧
        d.filter Event.isUpd
          = s.agents.map (fun ag => Event.updateEv ag.name (s.time + 1))) ∧
    (∀ (n : Nat) (s s' : Simulation), Simulation.ticksN n s = .ok s' →
      s'.time = s.time + n) := by
  refine ⟨fun s h => tick_gameover h, fun s s' h => ?_, fun n s s' h => ticksN_time h⟩
  refine ⟨tick_time h, (tick_lshape h).names_list, ?_⟩
  obtain ⟨d, hd, _, hfl⟩ := updateLoop_events (tick_ok_parts h).2
  refine ⟨d, hd, ?_⟩
  rw [hfl]
  simp

/-- Witness for C1 at concrete inputs: a simulation at time 150 raises
`GameOver`; one tick of `sim0` advances the time to 1 and updates its one
agent; two ticks advance the time by exactly 2. -/
theorem tick_gameover_or_unit_advance_witness :
    ({ sim0 with time := 150 } : Simulation).tick = .error Err.gameOver ∧
    (sim0after.time = sim0.time + 1 ∧
      sim0after.agents.map Agent.name = sim0.agents.map Agent.name ∧
      ∃ d, sim0after.trace = sim0.trace ++ d ∧
        d.filter Event.isUpd
          = sim0.agents.map (fun ag => Event.updateEv ag.name (sim0.time + 1))) ∧
    sim2after.time = sim0.time + (2 : Nat) :=
  ⟨tick_gameover_or_unit_advance.1 _ (by decide),
   tick_gameover_or_unit_advance.2.1 sim0 sim0after (by rfl),
   tick_gameover_or_unit_advance.2.2 2 sim0 sim2after (by rfl)⟩

/-- C2: `schedule_action` unconditionally overwrites the stored
`(eta, scheduled_action, scheduled_action_description)` triple with the
new action, whatever was stored before; and once an action `A` has been
replaced, so that `A` occurs nowhere in the simulation any more (the
freshness hypothesis `AFree`, which renders that the replaced closure
object is no longer referenced), no subsequent sequence of ticks ever
invokes `A`. -/
theorem schedule_action_overwrites_and_replaced_never_fires :
    (∀ (s : Simulation) (i : Nat) (ag : Agent), s.agents[i]? = some ag →
      ∀ (seconds : Int) (b : ActionCode) (d : String),
        (schedule_actionAt s i seconds b d).agents[i]?
          = some { ag with eta := some (s.time + seconds), scheduled_action := some b,
                           scheduled_action_description := d }) ∧
    (∀ (A : ActionCode) (s0 : Simulation) (i : Nat) (seconds : Int) (b : ActionCode)
       (d : String) (n : Nat) (s' : Simulation),
      AFree A (schedule_actionAt s0 i seconds b d) →
      Simulation.ticksN n (schedule_actionAt s0 i seconds b d) = .ok s' →
      ∀ nm, Event.fireEv nm A ∉ traceDelta (schedule_actionAt s0 i seconds b d) s') := by
  constructor
  · intro s i ag hag seconds b d
    exact schedule_actionAt_getElem_self hag seconds b d
  · intro A s0 i seconds b d n s' hA h nm
    obtain ⟨⟨dd, hdd, hnf⟩, _⟩ := ticksN_AFree h hA
    rw [traceDelta, hdd, List.drop_left]
    exact hnf nm

/-- Witness for C2 at concrete inputs: replacing the stored `noop 7` of
`c2agent` by `noop 8` (delay 3) overwrites the triple; the replaced
action is fresh afterwards, and over four ticks (during which the
replacement fires) the replaced action is never invoked. -/
theorem schedule_action_overwrites_and_replaced_never_fires_witness :
    ((schedule_actionAt c2sim 0 3 (ActionCode.noop 8) ("wait")).agents[0]?
       = some { c2agent with eta := some (c2sim.time + 3),
                             scheduled_action := some (ActionCode.noop 8),
                             scheduled_action_description := ("wait") }) ∧
    (∀ nm, Event.fireEv nm (ActionCode.noop 7)
      ∉ traceDelta (schedule_actionAt c2sim 0 3 (ActionCode.noop 8) ("wait")) c2after) :=
  ⟨schedule_action_overwrites_and_replaced_never_fires.1 c2sim 0 c2agent rfl 3
     (ActionCode.noop 8) ("wait"),
   schedule_action_overwrites_and_replaced_never_fires.2 (ActionCode.noop 7) c2sim 0 3
     (ActionCode.noop 8) ("wait") 4 c2after (by decide) (by rfl)⟩

/-- C3: the base-class `Agent.update(time)`: when the clock differs from
the stored eta nothing changes at all; when it matches, the three stored
fields are cleared first, then the stored effect runs, then the
`scheduled_action_done` hook, in that order — so an action scheduled from
inside the effect (a re-entrant `schedule_action`, second part) or from
inside the hook (the decider's next step, third part) is still stored
when update returns, and the ghost trace shows the effect invocation
strictly before the hook resumption. -/
theorem update_clears_then_runs_effect_then_hook :
    (∀ (s : Simulation) (i : Nat) (time : Int) (ag : Agent),
      s.agents[i]? = some ag → ¬ ag.eta = some time → baseUpdateAt s i time = .ok s) ∧
    (∀ (s : Simulation) (i : Nat) (t sec : Int) (B : ActionCode) (d : String) (ag : Agent),
      s.agents[i]? = some ag → ag.eta = some t →
      ag.scheduled_action = some (ActionCode.schedule_inside sec B d) →
      ag.data = AgentData.base →
      ∃ s', baseUpdateAt s i t = .ok s' ∧
        s'.agents[i]? = some { ag with eta := some (s.time + sec),
                                       scheduled_action := some B,
                                       scheduled_action_description := d } ∧
        s'.trace = s.trace
          ++ [Event.fireEv ag.name (ActionCode.schedule_inside sec B d)]) ∧
    ((baseUpdateAt c3sim 0 1).toOption.map (fun s' =>
        ((s'.agents[0]?).map (fun a =>
           (a.eta, a.scheduled_action, a.scheduled_action_description)), s'.trace))
      = some (some (some 2, some ActionCode.wait_done, ("wait")),
          [Event.fireEv ("RED 1 Robot") (ActionCode.noop 1),
           Event.driveEv ("RED 1 Robot")])) := by
  refine ⟨fun s i time ag hag hne => baseUpdateAt_nofire hag hne, ?_, by decide⟩
  intro s i t sec B d ag hag heta hact hdata
  rw [baseUpdateAt_fire hag heta hact]
  have hagC : (emit (modifyAgent s i clearAction)
      (Event.fireEv ag.name (ActionCode.schedule_inside sec B d))).agents[i]?
      = some (clearAction ag) :=
    modifyAgent_getElem_self _ hag
  have hrun : runAction (emit (modifyAgent s i clearAction)
      (Event.fireEv ag.name (ActionCode.schedule_inside sec B d))) i
      (ActionCode.schedule_inside sec B d)
      = .ok (schedule_actionAt (emit (modifyAgent s i clearAction)
          (Event.fireEv ag.name (ActionCode.schedule_inside sec B d))) i sec B d) := by
    unfold runAction
    rw [hagC]
  have hagX := schedule_actionAt_getElem_self hagC sec B d
  have hdone : scheduled_action_doneAt (schedule_actionAt
        (emit (modifyAgent s i clearAction)
          (Event.fireEv ag.name (ActionCode.schedule_inside sec B d))) i sec B d) i
      = .ok (schedule_actionAt (emit (modifyAgent s i clearAction)
          (Event.fireEv ag.name (ActionCode.schedule_inside sec B d))) i sec B d) := by
    unfold scheduled_action_doneAt
    rw [hagX]
    simp [clearAction, hdata]
  refine ⟨schedule_actionAt (emit (modifyAgent s i clearAction)
      (Event.fireEv ag.name (ActionCode.schedule_inside sec B d))) i sec B d,
    ?_, ?_, ?_⟩
  · rw [hrun]
    exact hdone
  · rw [hagX]
    have hEt : (emit (modifyAgent s i clearAction)
        (Event.fireEv ag.name (ActionCode.schedule_inside sec B d))).time = s.time := by
      rw [emit_time, modifyAgent_time]
    rw [hEt]
    simp [clearAction]
  · rw [show (schedule_actionAt (emit (modifyAgent s i clearAction)
        (Event.fireEv ag.name (ActionCode.schedule_inside sec B d))) i sec B d).trace
      = (emit (modifyAgent s i clearAction)
        (Event.fireEv ag.name (ActionCode.schedule_inside sec B d))).trace
      from modifyAgent_trace .., emit_trace, modifyAgent_trace]

/-- Witness for C3 at concrete inputs: updating `c2sim` at a non-eta time
changes nothing; firing the re-entrant effect of `c3bagent` leaves the
inner action stored on return. -/
theorem update_clears_then_runs_effect_then_hook_witness :
    baseUpdateAt c2sim 0 99 = .ok c2sim ∧
    (∃ s', baseUpdateAt c3bsim 0 1 = .ok s' ∧
      s'.agents[0]? = some { c3bagent with eta := some (c3bsim.time + 5),
                                             scheduled_action := some (ActionCode.noop 9),
                                             scheduled_action_description := ("inner") } ∧
      s'.trace = c3bsim.trace
        ++ [Event.fireEv c3bagent.name
             (ActionCode.schedule_inside 5 (ActionCode.noop 9) ("inner"))]) :=
  ⟨update_clears_then_runs_effect_then_hook.1 c2sim 0 99 c2agent rfl (by decide),
   update_clears_then_runs_effect_then_hook.2.1 c3bsim 0 1 5 (ActionCode.noop 9)
     ("inner") c3bagent rfl (by decide) (by decide) (by decide)⟩

/-- C4 counterexample: the claim says the single decider drive is "also
performed once at decider-attachment time (set_player), so the actor's
first action is scheduled immediately at attachment".  In the code
`set_player` merely stores the generator: after attachment nothing is
scheduled and the decider has not been advanced, although driving it once
(what the claim says attachment does) does schedule the first action. -/
theorem set_player_does_not_drive_cex :
    set_player c4robot c4player
      = { c4robot with data := AgentData.robot { c4robotData with player := c4player } } ∧
    (set_player c4robot c4player).scheduled_action = none ∧
    (set_player c4robot c4player).eta = none ∧
    ((playerNext c4sim 0).toOption.map (fun s' =>
        (s'.agents[0]?).map (fun a => (a.scheduled_action, a.eta))))
      = some (some (some ActionCode.wait_done, some 3)) := by
  exact ⟨by decide, by decide, by decide, by decide⟩

/-- C4 as amended: `Robot.update`/`Human.update` resume the attached
decider exactly once when they find no outstanding scheduled action,
before running the base-class update (and if the action the decider
schedules is not already due, that single resumption is all that
happens); `set_player` only stores the decider without driving it, for
Robots and Humans alike — so the actor's first decider step runs during
its first update, not at attachment. -/
theorem idle_update_drives_once_and_set_player_only_stores :
    (∀ (ag : Agent) (r : RobotData) (g : Player), ag.data = AgentData.robot r →
       set_player ag g = { ag with data := AgentData.robot { r with player := g } }) ∧
    (∀ (ag : Agent) (hm : HumanData) (g : Player), ag.data = AgentData.human hm →
       set_player ag g = { ag with data := AgentData.human { hm with player := g } }) ∧
    (∀ (s : Simulation) (i : Nat) (time : Int) (ag : Agent) (r : RobotData)
       (s2 : Simulation),
      s.agents[i]? = some ag → ag.data = AgentData.robot r →
      ag.scheduled_action = none →
      playerNext (emit s (Event.updateEv ag.name time)) i = .ok s2 →
      updateAt s i time = baseUpdateAt s2 i time ∧
      s2.trace = s.trace ++ [Event.updateEv ag.name time, Event.driveEv ag.name] ∧
      (∀ ag2, s2.agents[i]? = some ag2 → ¬ ag2.eta = some time →
        updateAt s i time = .ok s2)) ∧
    (∀ (s : Simulation) (i : Nat) (time : Int) (ag : Agent) (hm : HumanData)
       (s2 : Simulation),
      s.agents[i]? = some ag → ag.data = AgentData.human hm →
      ag.scheduled_action = none →
      playerNext (emit s (Event.updateEv ag.name time)) i = .ok s2 →
      updateAt s i time = baseUpdateAt s2 i time ∧
      s2.trace = s.trace ++ [Event.updateEv ag.name time, Event.driveEv ag.name] ∧
      (∀ ag2, s2.agents[i]? = some ag2 → ¬ ag2.eta = some time →
        updateAt s i time = .ok s2)) := by
  have hset : ∀ (ag : Agent) (r : RobotData) (g : Player), ag.data = AgentData.robot r →
      set_player ag g = { ag with data := AgentData.robot { r with player := g } } := by
    intro ag r g hdata
    unfold set_player
    split
    · next r2 heq =>
      rw [heq] at hdata
      injection hdata with hdata
      subst hdata
      rfl
    · next hm2 heq => rw [heq] at hdata; cases hdata
    · next hno1 hno2 =>
      first
      | exact absurd hdata (hno1 r)
      | exact absurd hdata (hno2 r)
  have hseth : ∀ (ag : Agent) (hm : HumanData) (g : Player), ag.data = AgentData.human hm →
      set_player ag g = { ag with data := AgentData.human { hm with player := g } } := by
    intro ag hm g hdata
    unfold set_player
    split
    · next r2 heq => rw [heq] at hdata; cases hdata
    · next hm2 heq =>
      rw [heq] at hdata
      injection hdata with hdata
      subst hdata
      rfl
    · next hno1 hno2 =>
      first
      | exact absurd hdata (hno1 hm)
      | exact absurd hdata (hno2 hm)
  have hupd : ∀ (s : Simulation) (i : Nat) (time : Int) (ag : Agent) (s2 : Simulation),
      s.agents[i]? = some ag →
      (ag.data = (match ag.data with
        | AgentData.robot r => AgentData.robot r
        | AgentData.human hm => AgentData.human hm
        | d => d)) →
      ((∃ r, ag.data = AgentData.robot r) ∨ (∃ hm, ag.data = AgentData.human hm)) →
      ag.scheduled_action = none →
      playerNext (emit s (Event.updateEv ag.name time)) i = .ok s2 →
      updateAt s i time = baseUpdateAt s2 i time ∧
      s2.trace = s.trace ++ [Event.updateEv ag.name time, Event.driveEv ag.name] ∧
      (∀ ag2, s2.agents[i]? = some ag2 → ¬ ag2.eta = some time →
        updateAt s i time = .ok s2) := by
    intro s i time ag s2 hag _ hrh hnone hplay
    have hmain : updateAt s i time = baseUpdateAt s2 i time := by
      unfold updateAt
      split
      · next heq => rw [heq] at hag; cases hag
      · next ag2 heq =>
        rw [heq] at hag
        injection hag with hh
        subst hh
        split
        · rw [if_pos hnone, hplay]
        · rw [if_pos hnone, hplay]
        · next hno1 hno2 =>
          rcases hrh with ⟨r, hr⟩ | ⟨hm, hmq⟩
          · first
            | exact absurd hr (hno1 r)
            | exact absurd hr (hno2 r)
          · first
            | exact absurd hmq (hno1 hm)
            | exact absurd hmq (hno2 hm)
    have htr : s2.trace
        = s.trace ++ [Event.updateEv ag.name time, Event.driveEv ag.name] := by
      rw [playerNext_trace (show (emit s (Event.updateEv ag.name time)).agents[i]?
        = some ag from hag) hplay, emit_trace, List.append_assoc]
      rfl
    refine ⟨hmain, htr, fun ag2 hag2 hne => ?_⟩
    rw [hmain]
    exact baseUpdateAt_nofire hag2 hne
  refine ⟨hset, hseth, ?_, ?_⟩
  · intro s i time ag r s2 hag hdata hnone hplay
    exact hupd s i time ag s2 hag (by rw [hdata]) (Or.inl ⟨r, hdata⟩) hnone hplay
  · intro s i time ag hm s2 hag hdata hnone hplay
    exact hupd s i time ag s2 hag (by rw [hdata]) (Or.inr ⟨hm, hdata⟩) hnone hplay

/-- Witness for the amended C4 at concrete inputs: `set_player` on
`c4robot` only stores the decider; the first update at time 1 performs
exactly one decider resumption (one `driveEv`), schedules the wait, and
completes. -/
theorem idle_update_drives_once_and_set_player_only_stores_witness :
    set_player c4robot c4player
      = { c4robot with data := AgentData.robot { c4robotData with player := c4player } } ∧
    updateAt c4sim1 0 1 = .ok c4after ∧
    c4after.trace = c4sim1.trace
      ++ [Event.updateEv ("RED 2 Robot") 1, Event.driveEv ("RED 2 Robot")] := by
  have h3 := idle_update_drives_once_and_set_player_only_stores.2.2.1 c4sim1 0 1
    (set_player c4robot c4player) { c4robotData with player := c4player } c4after
    rfl (by decide) (by decide) (by rfl)
  refine ⟨idle_update_drives_once_and_set_player_only_stores.1 c4robot c4robotData
    c4player rfl, ?_, ?_⟩
  · exact h3.2.2 _ (by rfl) (by decide)
  · simpa using h3.2.1

/-- C5 counterexample to the claim as stated ("for every delay D, never
skipped"): `schedule_action` performs no minimum-delay coercion, so a
delay-0 schedule stores `eta = now`; `update` only runs at strictly later
clock values, it never again sees `time == eta`, and the effect is
skipped forever: after three ticks it has fired zero times and is still
sitting in the slot. -/
theorem zero_delay_effect_never_fires_cex :
    ((Simulation.ticksN 3
          (schedule_actionAt c5zsim 0 0 (ActionCode.noop 4) ("skip"))).toOption.map
        (fun s1 => (countFireA (ActionCode.noop 4) s1.trace,
          (s1.agents[0]?).map Agent.scheduled_action)))
      = some (0, some (some (ActionCode.noop 4))) := by
  decide

/-- C5 (amended to `1 ≤ D`): an actor that schedules a fresh primitive
action with delay `D ≥ 1` at time `T = s.time`, and whose action is not
subsequently replaced (no agent, decider or stored slot can reach it
again: `AFree`), fires its effect exactly once over any `k` successful
ticks with `D ≤ k` — during the update of the tick at which
`time = T + D` — and zero times when `k < D` (never earlier); the clock
plays no other role, so this holds across the autonomous/teleop boundary.
For `D ≤ 0` the effect instead never fires (see the counterexample): the
spec's "never skipped, for every delay" is wrong exactly there. -/
theorem scheduled_effect_fires_exactly_at_eta (k : Nat) (D : Int) (s s' : Simulation)
    (i : Nat) (A : ActionCode) (desc : String) (ag : Agent)
    (hag : s.agents[i]? = some ag) (hA : AFree A s) (hprim : A.subActions = [A])
    (hD : 1 ≤ D)
    (h : Simulation.ticksN k (schedule_actionAt s i D A desc) = .ok s') :
    countFireA A (traceDelta (schedule_actionAt s i D A desc) s') =
      if D ≤ (k : Int) then 1 else 0 := by
  have hmem := List.getElem?_mem hag
  have hag2 : (schedule_actionAt s i D A desc).agents[i]?
      = some { ag with eta := some (s.time + D), scheduled_action := some A,
                       scheduled_action_description := desc } :=
    modifyAgent_getElem_self _ hag
  have ht : (schedule_actionAt s i D A desc).time = s.time := modifyAgent_time s i _
  refine fires_at_eta_aux hprim k D hag2 rfl ?_ ?_ ?_ hD h
  · rw [ht]
  · intro hx
    exact hA ag hmem (List.mem_append_right _ hx)
  · intro j bg hj hbg
    rw [schedule_actionAt_getElem_ne D A desc hj] at hbg
    exact hA bg (List.getElem?_mem hbg)

/-- Witness for the amended C5 at concrete inputs: scheduling `noop 3`
with delay 2 at time 0 on a fresh one-agent world and running 3 ticks
fires it exactly once (at the tick that set `time = 2`). -/
theorem scheduled_effect_fires_exactly_at_eta_witness :
    countFireA (ActionCode.noop 3)
        (traceDelta (schedule_actionAt c5zsim 0 2 (ActionCode.noop 3) ("later"))
          c5after)
      = 1 := by
  have h := scheduled_effect_fires_exactly_at_eta 3 2 c5zsim c5after 0
    (ActionCode.noop 3) ("later") c5zagent rfl (by decide) (by decide) (by decide)
    (by rfl)
  rw [if_pos (by decide)] at h
  exact h

/-- C6 counterexample to "scheduling in general is coerced": a direct
`schedule_action` call with delay 0 stores `eta = now + 0 = 0` and with
delay -2 stores `eta = -2`, neither of which equals `now + 1 = 1` — the
minimum-delay coercion lives only in `Agent.wait`, not in
`Agent.schedule_action`. -/
theorem negative_delay_schedule_not_coerced_cex :
    ((schedule_actionAt c5zsim 0 0 (ActionCode.noop 5) ("now")).agents[0]?).map
        Agent.eta = some (some 0) ∧
    ((schedule_actionAt c5zsim 0 (-2) (ActionCode.noop 5) ("past")).agents[0]?).map
        Agent.eta = some (some (-2)) ∧
    (0 : Int) ≠ c5zsim.time + 1 ∧ (-2 : Int) ≠ c5zsim.time + 1 := by
  decide

/-- C6 (amended): only `Agent.wait` applies the minimum-delay rule:
`wait(d)` schedules with delay `max d 1`, so the stored eta is
`now + max d 1`, which is `now + 1` whenever `d ≤ 0`; a general
`schedule_action(d, ...)` stores `eta = now + d` exactly, with no
coercion for zero or negative requested delays (see the
counterexample). -/
theorem wait_min_delay_coercion (s : Simulation) (i : Nat) (ag : Agent)
    (d : Int) (a : ActionCode) (desc : String) (hag : s.agents[i]? = some ag) :
    (∃ ag1, (waitAt s i d).agents[i]? = some ag1 ∧
        ag1.eta = some (s.time + max d 1) ∧
        (d ≤ 0 → ag1.eta = some (s.time + 1))) ∧
    (∃ ag2, (schedule_actionAt s i d a desc).agents[i]? = some ag2 ∧
        ag2.eta = some (s.time + d)) := by
  constructor
  · refine ⟨_, schedule_actionAt_getElem_self hag (max d 1) ActionCode.wait_done
      ("wait"), rfl, ?_⟩
    intro hd
    have hmax : max d 1 = 1 := by omega
    show some (s.time + max d 1) = some (s.time + 1)
    rw [hmax]
  · exact ⟨_, schedule_actionAt_getElem_self hag d a desc, rfl⟩

/-- Witness for the amended C6 at concrete inputs: `wait (-3)` on the
fresh one-agent world stores `eta = now + max (-3) 1 = now + 1`, while
`schedule_action (-3)` stores `eta = now - 3`. -/
theorem wait_min_delay_coercion_witness :
    (∃ ag1, (waitAt c5zsim 0 (-3)).agents[0]? = some ag1 ∧
        ag1.eta = some (c5zsim.time + max (-3) 1) ∧
        ((-3 : Int) ≤ 0 → ag1.eta = some (c5zsim.time + 1))) ∧
    (∃ ag2, (schedule_actionAt c5zsim 0 (-3) (ActionCode.noop 6) ("x")).agents[0]?
        = some ag2 ∧ ag2.eta = some (c5zsim.time + (-3))) :=
  wait_min_delay_coercion c5zsim 0 c5zagent (-3) (ActionCode.noop 6) ("x") rfl

/-- C7: in every successful `PowerUpGame.tick`, the base update pass runs
first — it scores nothing and updates every registered agent with the new
time exactly once, in registration order — and only then does the scoring
pass run, appending exactly one `scoreEv` per post-update agent in
registration order; the per-agent `score()` results are folded into the
running total by pairwise addition (`Score.add` adds red with red and
blue with blue) starting from the previous total. -/
theorem game_tick_scores_each_agent_once_after_updates (g g' : PowerUpGame)
    (h : g.tick = .ok g') :
    ∃ w d scs,
      g.sim.tick = .ok w ∧
      w.trace = g.sim.trace ++ d ∧
      (∀ e ∈ d, e.isScore = false) ∧
      d.filter Event.isUpd
        = g.sim.agents.map (fun ag => Event.updateEv ag.name (g.sim.time + 1)) ∧
      scs.length = w.agents.length ∧
      g'.sim.trace = w.trace ++ List.zipWith (fun nm sc => Event.scoreEv nm sc)
          (w.agents.map Agent.name) scs ∧
      g'.score = scs.foldl Score.add g.score := by
  unfold PowerUpGame.tick at h
  split at h
  · injection h
  · next w heqw =>
    injection h with h
    subst h
    obtain ⟨d, hd, hsc, hupd⟩ := updateLoop_events (tick_ok_parts heqw).2
    obtain ⟨scs, hlen, htr, hsc2⟩ := scoreLoop_names w.agents.length 0 w g.score
    refine ⟨w, d, scs, heqw, hd, hsc, ?_, ?_, ?_, hsc2⟩
    · rw [hupd]
      show ((g.sim.agents.drop 0).take g.sim.agents.length).map _ = _
      rw [List.drop_zero, List.take_length]
    · rw [hlen, List.drop_zero, List.take_length]
    · show (scoreLoop w.agents.length 0 w g.score).1.trace = _
      rw [htr, List.drop_zero, List.take_length]

/-- Witness for C7 at concrete inputs: one `PowerUpGame.tick` of the
one-agent zero-score game updates the agent once, then scores it once. -/
theorem game_tick_scores_each_agent_once_after_updates_witness :
    c7game.tick = .ok c7game2 ∧
    (∃ w d scs,
      c7game.sim.tick = .ok w ∧
      w.trace = c7game.sim.trace ++ d ∧
      (∀ e ∈ d, e.isScore = false) ∧
      d.filter Event.isUpd
        = c7game.sim.agents.map (fun ag => Event.updateEv ag.name (c7game.sim.time + 1)) ∧
      scs.length = w.agents.length ∧
      c7game2.sim.trace = w.trace ++ List.zipWith (fun nm sc => Event.scoreEv nm sc)
          (w.agents.map Agent.name) scs ∧
      c7game2.score = scs.foldl Score.add c7game.score) :=
  ⟨by rfl, game_tick_scores_each_agent_once_after_updates c7game c7game2 (by rfl)⟩

/-- C8: every cube-transfer effect whose precondition fails at firing
time — no cube at the source, the carrier already full or empty, no plate
or no cubes to take — returns the state unchanged without raising; in the
shared-counter scenario (two robots, both pickup effects due in the same
tick, one cube at the location) the robot updated first gets the cube,
the second's effect is a benign no-op, exactly one cube is removed; and
every fired effect keeps all cube counters nonnegative. -/
theorem cube_transfer_silent_preconditions :
    (∀ (s : Simulation) (i : Nat) (ag : Agent) (r : RobotData),
       s.agents[i]? = some ag → ag.data = AgentData.robot r →
       (¬ (s.cubes r.location > 0 ∧ r.cubes = 0) →
          runAction s i ActionCode.pickup_finish = .ok s) ∧
       (¬ r.cubes > 0 → runAction s i ActionCode.drop_finish = .ok s) ∧
       (s.plates r.location = none → runAction s i ActionCode.place_finish = .ok s) ∧
       (¬ r.cubes > 0 → runAction s i ActionCode.place_finish = .ok s)) ∧
    (∀ (s : Simulation) (i : Nat) (ag : Agent) (hm : HumanData),
       s.agents[i]? = some ag → ag.data = AgentData.human hm →
       (¬ hm.cubes > 0 → runAction s i ActionCode.put_to_exchange_finish = .ok s) ∧
       (¬ hm.cubes > 0 → runAction s i ActionCode.put_through_portal_finish = .ok s) ∧
       (∀ p, hm.exchange_plate = some p → ¬ s.plateCubes p > 0 →
          runAction s i ActionCode.get_from_exchange_finish = .ok s)) ∧
    ((Simulation.ticksN 1 c8sim).toOption.map (fun s1 =>
        ((s1.agents[0]?).map carriedCubes, (s1.agents[1]?).map carriedCubes,
         s1.cubes Location.RED_OUTER_ZONE))
      = some (some 1, some 0, 0)) ∧
    (∀ (s : Simulation) (i : Nat) (a : ActionCode) (s' : Simulation),
       NonnegCubes s → runAction s i a = .ok s' → NonnegCubes s') := by
  refine ⟨?_, ?_, by decide, fun s i a s' hnn h => runAction_nonneg hnn h⟩
  · intro s i ag r hag hdata
    refine ⟨?_, ?_, ?_, ?_⟩
    · intro hng
      simp only [runAction, hag, hdata]
      rw [if_neg hng]
    · intro hng
      simp only [runAction, hag, hdata]
      rw [if_neg hng]
    · intro hpl
      simp only [runAction, hag, hdata, hpl]
    · intro hng
      cases hploc : s.plates r.location with
      | none => simp only [runAction, hag, hdata, hploc]
      | some p =>
        simp only [runAction, hag, hdata, hploc]
        rw [if_neg hng]
  · intro s i ag hm hag hdata
    refine ⟨?_, ?_, ?_⟩
    · intro hng
      simp only [runAction, hag, hdata]
      rw [if_neg hng]
    · intro hng
      simp only [runAction, hag, hdata]
      rw [if_neg hng]
    · intro p hpe hng
      simp only [runAction, hag, hdata, hpe]
      rw [if_neg hng]

/-- Witness for C8 at concrete inputs: robot A (holding no cube) firing
`drop` is a silent no-op, and the two-robot one-cube tick ends with A
holding the cube, B empty-handed, and the location emptied — exactly one
cube moved. -/
theorem cube_transfer_silent_preconditions_witness :
    runAction c8sim 0 ActionCode.drop_finish = .ok c8sim ∧
    ((Simulation.ticksN 1 c8sim).toOption.map (fun s1 =>
        ((s1.agents[0]?).map carriedCubes, (s1.agents[1]?).map carriedCubes,
         s1.cubes Location.RED_OUTER_ZONE))
      = some (some 1, some 0, 0)) :=
  ⟨(cube_transfer_silent_preconditions.1 c8sim 0 c8robotA c8robotData rfl rfl).2.1
      (by decide),
   cube_transfer_silent_preconditions.2.2.1⟩

/-- C9 counterexample to "raises for every alliance argument": a Switch
handed the opposing alliance during the autonomous phase neither raises
nor changes anything — `Switch.force`/`Switch.boost` silently ignore an
alliance that is not their own, and only the own-alliance path reaches
the raising Scale code. -/
theorem switch_wrong_alliance_silent_cex :
    Switch.force c9sim.autonomous (some Color.RED) c9seesaw Color.BLUE true
        = .ok c9seesaw ∧
    Switch.boost c9sim.autonomous (some Color.RED) c9seesaw Color.BLUE true
        = .ok c9seesaw ∧
    c9sim.time ≤ AUTONOMOUS_SECS :=
  ⟨by rfl, by rfl, by decide⟩

/-- C9 (amended): during the autonomous phase (`time ≤ AUTONOMOUS_SECS`),
`Scale.force` and `Scale.boost` raise `RuntimeError` for every alliance
and every `is_start` value, leaving the seesaw state unchanged (the error
is produced before any assignment); `Switch.force`/`Switch.boost` do the
same, but only when the alliance argument is the Switch's own alliance —
for any other alliance they are a silent no-op, raising nothing and
changing nothing, in any phase. -/
theorem seesaw_force_boost_autonomous_raises (s : Simulation) (d : SeesawData)
    (alliance : Color) (start : Bool) (selfA : Option Color)
    (h : s.time ≤ AUTONOMOUS_SECS) :
    Scale.force s.autonomous d alliance start
        = .error (.runtimeError ("Cannot Force during autonomous")) ∧
    Scale.boost s.autonomous d alliance start
        = .error (.runtimeError ("Cannot Boost during autonomous")) ∧
    (some alliance = selfA →
       Switch.force s.autonomous selfA d alliance start
           = .error (.runtimeError ("Cannot Force during autonomous")) ∧
       Switch.boost s.autonomous selfA d alliance start
           = .error (.runtimeError ("Cannot Boost during autonomous"))) ∧
    (some alliance ≠ selfA →
       Switch.force s.autonomous selfA d alliance start = .ok d ∧
       Switch.boost s.autonomous selfA d alliance start = .ok d) := by
  have ha : s.autonomous = true := by
    unfold Simulation.autonomous
    simpa using h
  have hf : Scale.force s.autonomous d alliance start
      = .error (.runtimeError ("Cannot Force during autonomous")) := by
    unfold Scale.force
    rw [ha]
    rfl
  have hb : Scale.boost s.autonomous d alliance start
      = .error (.runtimeError ("Cannot Boost during autonomous")) := by
    unfold Scale.boost
    rw [ha]
    rfl
  refine ⟨hf, hb, ?_, ?_⟩
  · intro hsa
    constructor
    · unfold Switch.force
      rw [if_pos hsa]
      exact hf
    · unfold Switch.boost
      rw [if_pos hsa]
      exact hb
  · intro hsa
    constructor
    · unfold Switch.force
      rw [if_neg hsa]
    · unfold Switch.boost
      rw [if_neg hsa]

/-- Witness for the amended C9 at concrete inputs: at time 0 the Scale
raises on Force for BLUE, and the RED Switch raises on Force only for
RED. -/
theorem seesaw_force_boost_autonomous_raises_witness :
    Scale.force c9sim.autonomous c9seesaw Color.BLUE true
        = .error (.runtimeError ("Cannot Force during autonomous")) ∧
    Switch.force c9sim.autonomous (some Color.RED) c9seesaw Color.RED true
        = .error (.runtimeError ("Cannot Force during autonomous")) := by
  have h1 := seesaw_force_boost_autonomous_raises c9sim c9seesaw Color.BLUE true
    (some Color.RED) (by decide)
  have h2 := seesaw_force_boost_autonomous_raises c9sim c9seesaw Color.RED true
    (some Color.RED) (by decide)
  exact ⟨h1.1, (h2.2.2.1 rfl).1⟩

/-- C10: some Robot requests are refused at scheduling time — `climb()`
schedules nothing when the robot is not at its alliance platform, and
`drive_to()` schedules nothing once the robot has climbed; both refusals
return the state completely unchanged, so any previously scheduled action
stays pending exactly as stored (not replaced, not cancelled).  By
contrast the normal path always schedules a replacement: `pickup()`
unconditionally stores its `pickup_finish` effect (whose precondition is
then checked only at firing time). -/
theorem robot_refusals_at_scheduling_time (s : Simulation) (i : Nat) (ag : Agent)
    (r : RobotData) (hag : s.agents[i]? = some ag)
    (hdata : ag.data = AgentData.robot r) :
    (at_platform ag.alliance r.location = false → runCmd s i Cmd.climb = .ok s) ∧
    (r.climbed ≠ Climbed.notClimbed →
       ∀ dest, runCmd s i (Cmd.drive_to dest) = .ok s) ∧
    runCmd s i Cmd.pickup
      = .ok (schedule_actionAt s i r.pickup_time ActionCode.pickup_finish
          ("pickup")) := by
  refine ⟨?_, ?_, ?_⟩
  · intro hplat
    simp only [runCmd, hag, hdata]
    rw [if_neg (by simp [hplat])]
  · intro hcl dest
    simp only [runCmd, hag, hdata]
    rw [if_pos hcl]
  · simp only [runCmd, hag, hdata]

/-- Witness for C10 at concrete inputs: the off-platform robot's `climb`
and the climbed robot's `drive_to` leave their worlds (and the pending
`noop 2`) untouched, while `pickup` schedules its effect. -/
theorem robot_refusals_at_scheduling_time_witness :
    runCmd c10sim 0 Cmd.climb = .ok c10sim ∧
    runCmd c10csim 0 (Cmd.drive_to Location.RED_FRONT_INNER_ZONE) = .ok c10csim ∧
    runCmd c10sim 0 Cmd.pickup
      = .ok (schedule_actionAt c10sim 0 c10robotData.pickup_time
          ActionCode.pickup_finish ("pickup")) := by
  have h1 := robot_refusals_at_scheduling_time c10sim 0 c10robot c10robotData rfl rfl
  have h2 := robot_refusals_at_scheduling_time c10csim 0 c10crobot c10crobotData
    rfl rfl
  exact ⟨h1.1 (by decide), h2.2.1 (by decide) _, h1.2.2⟩

end PowerUp
